import Mathlib

/-!
Verification of the palettelab color engine: a shallow embedding of the
hex/HSL color-math module (`src/lib/colors.ts`, current revision with
variable swatch counts) and of the palette-generator hook
(`src/hooks/use-palette-generator.ts`), together with theorems settling the
specification claims about them.

JavaScript numbers are modelled as exact rationals extended with a NaN
element (`Option ℚ`, `none` = NaN).  All arithmetic in the engine is
+, -, *, /, %, min, max, round and comparisons, so the rational model is
exact; the only divergence from IEEE doubles is the absence of rounding
error, which matters to none of the claims.  Division by zero (which
JavaScript maps to Infinity) is mapped to NaN; no reachable code path of
the engine divides a finite value by zero, as the proofs below establish
positivity of every denominator.
-/

namespace PaletteLab

/-- JavaScript number: `none` is NaN, `some q` a finite (exact) value. -/
abbrev JsNum := Option ℚ

/-- JS `+` (NaN propagates). -/
def jadd : JsNum → JsNum → JsNum
  | some a, some b => some (a + b)
  | _, _ => none

/-- JS `-` (NaN propagates). -/
def jsub : JsNum → JsNum → JsNum
  | some a, some b => some (a - b)
  | _, _ => none

/-- JS `*` (NaN propagates). -/
def jmul : JsNum → JsNum → JsNum
  | some a, some b => some (a * b)
  | _, _ => none

/-- JS `/` (NaN propagates; division of a finite value by zero, which is
Infinity in JS, is mapped to NaN -- it is unreachable in the engine). -/
def jdiv : JsNum → JsNum → JsNum
  | some a, some b => if b = 0 then none else some (a / b)
  | _, _ => none

/-- `Math.max` of two values (NaN if either argument is NaN). -/
def jmax : JsNum → JsNum → JsNum
  | some a, some b => some (max a b)
  | _, _ => none

/-- `Math.min` of two values (NaN if either argument is NaN). -/
def jmin : JsNum → JsNum → JsNum
  | some a, some b => some (min a b)
  | _, _ => none

/-- JS `<` (false whenever an operand is NaN). -/
def jlt : JsNum → JsNum → Bool
  | some a, some b => decide (a < b)
  | _, _ => false

/-- JS `>` (false whenever an operand is NaN). -/
def jgt : JsNum → JsNum → Bool
  | some a, some b => decide (b < a)
  | _, _ => false

/-- JS `>=` (false whenever an operand is NaN). -/
def jge : JsNum → JsNum → Bool
  | some a, some b => decide (b ≤ a)
  | _, _ => false

/-- JS `===` on numbers (false whenever an operand is NaN). -/
def jeq : JsNum → JsNum → Bool
  | some a, some b => decide (a = b)
  | _, _ => false

/-- JS `!==` on numbers (NaN is unequal to everything, itself included). -/
def jneq (a b : JsNum) : Bool := !(jeq a b)

/-- Truncation toward zero of a rational, as JS `Math.trunc` and the `%`
operator use.  `q.num.natAbs / q.den` is the floor of `|q|`. -/
def jsTrunc (q : ℚ) : ℤ :=
  if q.num < 0 then -((q.num.natAbs / q.den : ℕ) : ℤ) else ((q.num.natAbs / q.den : ℕ) : ℤ)

/-- JS `%` (remainder with the sign of the dividend, NaN propagates,
`x % 0` is NaN). -/
def jmod : JsNum → JsNum → JsNum
  | some a, some b => if b = 0 then none else some (a - b * (jsTrunc (a / b) : ℚ))
  | _, _ => none

/-- Floor of a rational as an integer; `q.num / q.den` (integer division by a
positive denominator) is exactly `⌊q⌋`, and unlike `Int.floor` it reduces in
the kernel. -/
def ratFloor (q : ℚ) : ℤ := q.num / q.den

/-- `Math.round`: round half toward positive infinity, `⌊x + 1/2⌋`. -/
def jsRound (q : ℚ) : ℤ := ratFloor (q + 1 / 2)

/-- Value of a hexadecimal digit character (`[0-9A-Fa-f]`), if it is one. -/
def hexDigitVal : Char → Option ℕ := fun c =>
  if 48 ≤ c.toNat ∧ c.toNat ≤ 57 then some (c.toNat - 48)
  else if 65 ≤ c.toNat ∧ c.toNat ≤ 70 then some (c.toNat - 55)
  else if 97 ≤ c.toNat ∧ c.toNat ≤ 102 then some (c.toNat - 87)
  else none

/-- Whether a character is a hexadecimal digit (`[0-9A-Fa-f]`). -/
def isHexDigitChar (c : Char) : Bool := (hexDigitVal c).isSome

/-- Accumulate the value of a list of hex digit characters. -/
def hexDigitsVal (l : List Char) : ℕ :=
  l.foldl (fun a c => 16 * a + ((hexDigitVal c).getD 0)) 0

/-- The channel value of a two-hex-digit pair. -/
def hexPairVal (c d : Char) : ℕ := 16 * (hexDigitVal c).getD 0 + (hexDigitVal d).getD 0

/-- JS `parseInt(s, 16)`: an optional sign followed by the longest prefix of
hexadecimal digits; NaN when that prefix is empty.  (The leading-whitespace
and `0x`-prefix handling of `parseInt` is elided: no call site in the engine
can receive such strings without already yielding NaN or being governed by a
digit prefix.) -/
def jsParseIntHexCore (l : List Char) : JsNum :=
  match l.takeWhile isHexDigitChar with
  | [] => none
  | ds => some ((hexDigitsVal ds : ℕ) : ℚ)

/-- JS unary minus (NaN propagates). -/
def jneg : JsNum → JsNum
  | some v => some (-v)
  | none => none

/-- JS `parseInt(s, 16)`, sign handling included. -/
def jsParseIntHex (s : String) : JsNum :=
  match s.data with
  | c :: rest =>
    if c = '-' then jneg (jsParseIntHexCore rest)
    else if c = '+' then jsParseIntHexCore rest
    else jsParseIntHexCore (c :: rest)
  | [] => none

/-- JS `String.prototype.substring(a, b)` for `a ≤ b`: the characters from
index `a` (inclusive) to `b` (exclusive), clamped to the string length. -/
def jsSubstring (s : String) (a b : ℕ) : String := ⟨(s.data.drop a).take (b - a)⟩

/-- JS `s.replace('#', '')`: remove the first occurrence of `'#'`. -/
def removeFirstHash : List Char → List Char
  | [] => []
  | c :: r => if c = '#' then r else c :: removeFirstHash r

/-- JS `hexColor.replace('#', '')` at the string level. -/
def jsStripHash (s : String) : String := ⟨removeFirstHash s.data⟩

/-- The `{h, s, l}` record returned by `hexToHSL`. -/
structure HSL where
  h : JsNum
  s : JsNum
  l : JsNum
deriving DecidableEq

/-- The max/min/lightness/saturation/hue computation of `hexToHSL` on the
three normalized channel values.  The `switch (max)` statement is
first-match (`case r`, then `case g`, then `case b`); with NaN channels no
case matches and `h` keeps its initial 0, and `max !== min` holds (NaN is
unequal to itself), so NaN channels take the chromatic branch. -/
def hslOfChannels (r g b : JsNum) : HSL :=
  let maxv := jmax r (jmax g b)
  let minv := jmin r (jmin g b)
  let l := jdiv (jadd maxv minv) (some 2)
  if jneq maxv minv then
    let d := jsub maxv minv
    let s := if jgt l (some (1 / 2)) then jdiv d (jsub (some 2) (jadd maxv minv))
             else jdiv d (jadd maxv minv)
    let h :=
      if jeq maxv r then
        jadd (jdiv (jsub g b) d) (if jlt g b then some 6 else some 0)
      else if jeq maxv g then
        jadd (jdiv (jsub b r) d) (some 2)
      else if jeq maxv b then
        jadd (jdiv (jsub r g) d) (some 4)
      else some 0
    ⟨jmul h (some 60), s, l⟩
  else
    ⟨some 0, some 0, l⟩

/-- `hexToHSL` from `src/lib/colors.ts`: strip `'#'`, parse the three channel
pairs at offsets 0-2, 2-4, 4-6, normalize to [0,1], and compute lightness,
saturation and hue by the standard max/min branches. -/
def hexToHSL (hexColor : String) : HSL :=
  let hex := jsStripHash hexColor
  hslOfChannels
    (jdiv (jsParseIntHex (jsSubstring hex 0 2)) (some 255))
    (jdiv (jsParseIntHex (jsSubstring hex 2 4)) (some 255))
    (jdiv (jsParseIntHex (jsSubstring hex 4 6)) (some 255))

/-- The `hue2rgb` helper inside `hslToHex`: wrap `t` once into [0,1], then
four linear segments. -/
def hue2rgb (p q t0 : JsNum) : JsNum :=
  let t1 := if jlt t0 (some 0) then jadd t0 (some 1) else t0
  let t := if jgt t1 (some 1) then jsub t1 (some 1) else t1
  if jlt t (some (1 / 6)) then jadd p (jmul (jmul (jsub q p) (some 6)) t)
  else if jlt t (some (1 / 2)) then q
  else if jlt t (some (2 / 3)) then
    jadd p (jmul (jmul (jsub q p) (jsub (some (2 / 3)) t)) (some 6))
  else p

/-- The channel triple `(r, g, b)` computed inside `hslToHex` before
rounding: the achromatic short-circuit when `s === 0`, otherwise the
two-anchor `(p, q)` construction evaluated at phase offsets +1/3, 0, -1/3. -/
def hslChannels (h s l : JsNum) : JsNum × JsNum × JsNum :=
  if jeq s (some 0) then (l, l, l)
  else
    let q := if jlt l (some (1 / 2)) then jmul l (jadd (some 1) s)
             else jsub (jadd l s) (jmul l s)
    let p := jsub (jmul (some 2) l) q
    (hue2rgb p q (jadd (jdiv h (some 360)) (some (1 / 3))),
     hue2rgb p q (jdiv h (some 360)),
     hue2rgb p q (jsub (jdiv h (some 360)) (some (1 / 3))))

/-- A natural number in lowercase hexadecimal, as JS `n.toString(16)`. -/
def natToHexStr (n : ℕ) : String := ⟨Nat.toDigits 16 n⟩

/-- An integer in lowercase hexadecimal, as JS `n.toString(16)` (a leading
minus sign for negative values; unreachable in the engine). -/
def intToHexStr (n : ℤ) : String :=
  if n < 0 then "-" ++ natToHexStr n.natAbs else natToHexStr n.toNat

/-- The `toHex` helper inside `hslToHex`: `Math.round(x * 255).toString(16)`
zero-padded to two digits.  On NaN, JS `NaN.toString(16)` is `"NaN"`. -/
def toHexByte (x : JsNum) : String :=
  match x with
  | none => "NaN"
  | some v =>
    let s := intToHexStr (jsRound (v * 255))
    if s.length = 1 then "0" ++ s else s

/-- `hslToHex` from `src/lib/colors.ts`. -/
def hslToHex (h s l : JsNum) : String :=
  let c := hslChannels h s l
  "#" ++ toHexByte c.1 ++ toHexByte c.2.1 ++ toHexByte c.2.2

/-- `isValidHexColor`: the regex `^#?([0-9A-F]{3}|[0-9A-F]{6})$/i` -- an
optional `'#'` followed by exactly 3 or exactly 6 hex digits. -/
def validDigits (l : List Char) : Bool :=
  (l.length = 3 || l.length = 6) && l.all isHexDigitChar

/-- `isValidHexColor` from `src/lib/colors.ts`. -/
def isValidHexColor (color : String) : Bool :=
  match color.data with
  | '#' :: rest => validDigits rest
  | l => validDigits l

/-- `standardizeHexColor`: ensure a leading `'#'`; expand the 3-digit
shorthand by duplicating each digit.  No validation, no case folding. -/
def standardizeHexColor (color : String) : String :=
  let hex := if color.data.head? = some '#' then color else "#" ++ color
  match hex.data with
  | ['#', a, b, c] => ⟨['#', a, a, b, b, c, c]⟩
  | _ => hex

/-- The `PaletteType` union from `src/lib/colors.ts`. -/
inductive PaletteType where
  | monochromatic
  | analogous
  | complementary
  | triadic
  | tetradic
  | splitComplementary
deriving DecidableEq

/-- The string form of a `PaletteType` (its TS literal). -/
def paletteTypeString : PaletteType → String
  | .monochromatic => "monochromatic"
  | .analogous => "analogous"
  | .complementary => "complementary"
  | .triadic => "triadic"
  | .tetradic => "tetradic"
  | .splitComplementary => "split-complementary"

/-- `Math.ceil(a / b)` for naturals. -/
def natCeilDiv (a b : ℕ) : ℕ := (a + b - 1) / b

/-- `generateMonochromaticPalette(baseColor, swatchCount)`.  The two index
loops of the source (`unshift` for tints, `push` for shades) are rendered as
maps over ranges: the tint at final index `j` was produced with
`steps = middleIndex - j`, the shade at offset `j` after the base with
`steps = j + 1`. -/
def generateMonochromaticPalette (baseColor : String) (swatchCount : ℕ) : List String :=
  let standardHex := standardizeHexColor baseColor
  let hsl := hexToHSL standardHex
  let count := max 3 swatchCount
  let middleIndex := (count - 1) / 2
  let stepSize : ℚ := if count ≤ 5 then 0.2 else 0.8 / ((count / 2 : ℕ) : ℚ)
  let tints := (List.range middleIndex).map (fun (j : ℕ) =>
    let steps := middleIndex - j
    hslToHex hsl.h hsl.s (jmin (jadd hsl.l (some ((steps : ℚ) * stepSize))) (some 0.97)))
  let shades := (List.range (count - (middleIndex + 1))).map (fun (j : ℕ) =>
    let steps : ℕ := j + 1
    hslToHex hsl.h hsl.s (jmax (jsub hsl.l (some ((steps : ℚ) * stepSize))) (some 0.05)))
  tints ++ [standardHex] ++ shades

/-- `generateAnalogousPalette(baseColor, swatchCount)`.  The decreasing-hue
loop runs `i = colorsPerSide, ..., 1` (rendered as `i = colorsPerSide - j`),
the increasing-hue loop `i = 1, ..., colorsPerSide`. -/
def generateAnalogousPalette (baseColor : String) (swatchCount : ℕ) : List String :=
  let standardHex := standardizeHexColor baseColor
  let hsl := hexToHSL standardHex
  let count := max 3 swatchCount
  let angleStep : ℚ := if count ≤ 5 then 20 else 80 / ((count / 2 : ℕ) : ℚ)
  let colorsPerSide := count / 2
  let hasMiddle := count % 2 ≠ 0
  let dec := (List.range colorsPerSide).map (fun (j : ℕ) =>
    let i := colorsPerSide - j
    hslToHex (jmod (jadd (jsub hsl.h (some ((i : ℚ) * angleStep))) (some 360)) (some 360))
      hsl.s hsl.l)
  let inc := (List.range colorsPerSide).map (fun (j : ℕ) =>
    let i : ℕ := j + 1
    hslToHex (jmod (jadd hsl.h (some ((i : ℚ) * angleStep))) (some 360)) hsl.s hsl.l)
  dec ++ (if hasMiddle then [standardHex] else []) ++ inc

/-- `generateComplementaryPalette(baseColor, swatchCount)`. -/
def generateComplementaryPalette (baseColor : String) (swatchCount : ℕ) : List String :=
  let standardHex := standardizeHexColor baseColor
  let hsl := hexToHSL standardHex
  let complementH := jmod (jadd hsl.h (some 180)) (some 360)
  let count := max 4 swatchCount
  let mainColorCount := natCeilDiv count 2
  let complementColorCount := count / 2
  let mainStepSize : ℚ := 0.3 / ((mainColorCount : ℚ) - 1)
  let compStepSize : ℚ := 0.3 / ((max 1 (complementColorCount - 1) : ℕ) : ℚ)
  let main := (List.range mainColorCount).map (fun (i : ℕ) =>
    if i = 0 then
      hslToHex hsl.h (jmax (some 0.1) (jsub hsl.s (some 0.2)))
        (jmin (some 0.9) (jadd hsl.l (some 0.1)))
    else if i = 1 then standardHex
    else
      hslToHex hsl.h (jmin (some 1) (jadd hsl.s (some (((i : ℚ) - 1) * mainStepSize))))
        (jmax (some 0.1) (jsub hsl.l (some (((i : ℚ) - 1) * mainStepSize)))))
  let comp := (List.range complementColorCount).map (fun (i : ℕ) =>
    if i = 0 then
      hslToHex complementH (jmax (some 0.1) (jsub hsl.s (some 0.2)))
        (jmin (some 0.9) (jadd hsl.l (some 0.1)))
    else
      hslToHex complementH (jmin (some 1) (jadd hsl.s (some (((i : ℚ) - 1) * compStepSize))))
        (jmax (some 0.1) (jsub hsl.l (some (((i : ℚ) - 1) * compStepSize)))))
  main ++ comp

/-- `generateTriadicPalette(baseColor, swatchCount)`. -/
def generateTriadicPalette (baseColor : String) (swatchCount : ℕ) : List String :=
  let standardHex := standardizeHexColor baseColor
  let hsl := hexToHSL standardHex
  let triad1H := jmod (jadd hsl.h (some 120)) (some 360)
  let triad2H := jmod (jadd hsl.h (some 240)) (some 360)
  let count := max 3 swatchCount
  let colorsForBase := natCeilDiv count 3
  let colorsForTriad1 := (count - colorsForBase) / 2
  let colorsForTriad2 := count - colorsForBase - colorsForTriad1
  let baseArm := (List.range colorsForBase).map (fun (i : ℕ) =>
    if i = 0 then standardHex
    else
      let step : ℚ := (i : ℚ) / (colorsForBase : ℚ)
      hslToHex hsl.h (jmin (some 1) (jadd hsl.s (some (0.05 * step))))
        (jmax (some 0.1) (jsub hsl.l (some (0.1 * step)))))
  let arm1 := (List.range colorsForTriad1).map (fun (i : ℕ) =>
    if i = 0 then hslToHex triad1H hsl.s hsl.l
    else
      let step : ℚ := (i : ℚ) / (colorsForTriad1 : ℚ)
      hslToHex triad1H (jmin (some 1) (jadd hsl.s (some (0.05 * step))))
        (jmax (some 0.1) (jsub hsl.l (some (0.1 * step)))))
  let arm2 := (List.range colorsForTriad2).map (fun (i : ℕ) =>
    if i = 0 then hslToHex triad2H hsl.s hsl.l
    else
      let step : ℚ := (i : ℚ) / (colorsForTriad2 : ℚ)
      hslToHex triad2H (jmin (some 1) (jadd hsl.s (some (0.05 * step))))
        (jmax (some 0.1) (jsub hsl.l (some (0.1 * step)))))
  baseArm ++ arm1 ++ arm2

/-- `generateTetradicPalette(baseColor, swatchCount)`.  The count is
distributed by successive ceiling-halving of the remainder. -/
def generateTetradicPalette (baseColor : String) (swatchCount : ℕ) : List String :=
  let standardHex := standardizeHexColor baseColor
  let hsl := hexToHSL standardHex
  let tetrad1H := jmod (jadd hsl.h (some 90)) (some 360)
  let tetrad2H := jmod (jadd hsl.h (some 180)) (some 360)
  let tetrad3H := jmod (jadd hsl.h (some 270)) (some 360)
  let count := max 4 swatchCount
  let baseCount := natCeilDiv count 4
  let rem1 := count - baseCount
  let tetrad1Count := natCeilDiv rem1 3
  let rem2 := rem1 - tetrad1Count
  let tetrad2Count := natCeilDiv rem2 2
  let tetrad3Count := rem2 - tetrad2Count
  let baseArm := (List.range baseCount).map (fun (i : ℕ) =>
    if i = 0 then standardHex
    else
      hslToHex hsl.h
        (jmax (some 0.1) (jsub hsl.s (some (0.3 * (i : ℚ) / (baseCount : ℚ)))))
        (jmin (some 0.95) (jadd hsl.l (some (0.2 * (i : ℚ) / (baseCount : ℚ))))))
  let arm1 := (List.range tetrad1Count).map (fun _ => hslToHex tetrad1H hsl.s hsl.l)
  let arm2 := (List.range tetrad2Count).map (fun _ => hslToHex tetrad2H hsl.s hsl.l)
  let arm3 := (List.range tetrad3Count).map (fun _ => hslToHex tetrad3H hsl.s hsl.l)
  baseArm ++ arm1 ++ arm2 ++ arm3

/-- `generateSplitComplementaryPalette(baseColor, swatchCount)`. -/
def generateSplitComplementaryPalette (baseColor : String) (swatchCount : ℕ) : List String :=
  let standardHex := standardizeHexColor baseColor
  let hsl := hexToHSL standardHex
  let splitComplement1H := jmod (jadd hsl.h (some 150)) (some 360)
  let splitComplement2H := jmod (jadd hsl.h (some 210)) (some 360)
  let count := max 3 swatchCount
  let baseColorCount := natCeilDiv count 3
  let split1Count := (count - baseColorCount) / 2
  let split2Count := count - baseColorCount - split1Count
  let baseArm := (List.range baseColorCount).map (fun (i : ℕ) =>
    if i = 0 then
      hslToHex hsl.h (jmax (some 0.1) (jsub hsl.s (some 0.1)))
        (jmin (some 0.95) (jadd hsl.l (some 0.1)))
    else if i = 1 then standardHex
    else
      hslToHex hsl.h (jmin (some 1) (jadd hsl.s (some 0.1)))
        (jmax (some 0.1) (jsub hsl.l (some 0.1))))
  let arm1 := (List.range split1Count).map (fun _ => hslToHex splitComplement1H hsl.s hsl.l)
  let arm2 := (List.range split2Count).map (fun _ => hslToHex splitComplement2H hsl.s hsl.l)
  baseArm ++ arm1 ++ arm2

/-- `generatePalette(baseColor, type, swatchCount)`: the dispatcher.  The TS
defaults (`type = 'monochromatic'`, `swatchCount = 5`) are supplied
explicitly by the callers modelled here. -/
def generatePalette (baseColor : String) (type : PaletteType) (swatchCount : ℕ) : List String :=
  match type with
  | .analogous => generateAnalogousPalette baseColor swatchCount
  | .complementary => generateComplementaryPalette baseColor swatchCount
  | .triadic => generateTriadicPalette baseColor swatchCount
  | .tetradic => generateTetradicPalette baseColor swatchCount
  | .splitComplementary => generateSplitComplementaryPalette baseColor swatchCount
  | .monochromatic => generateMonochromaticPalette baseColor swatchCount

/-- `getContrastColor` from `src/lib/colors.ts`: YIQ luminance over raw
0-255 channels, black text for luminance at least 128, else white. -/
def getContrastColor (hexColor : String) : String :=
  let hex := jsStripHash hexColor
  let r := jsParseIntHex (jsSubstring hex 0 2)
  let g := jsParseIntHex (jsSubstring hex 2 4)
  let b := jsParseIntHex (jsSubstring hex 4 6)
  let yiq := jdiv (jadd (jadd (jmul r (some 299)) (jmul g (some 587))) (jmul b (some 114)))
    (some 1000)
  if jge yiq (some 128) then "#000000" else "#ffffff"

/-- The `PaletteColors` record cached by `use-palette-generator.ts`. -/
structure PaletteColors where
  colors : List String
  textColors : List String
deriving DecidableEq

/-- `generatePaletteAsync` from `use-palette-generator.ts`: after a zero
delay it calls `generatePalette(baseColor, type)` -- two arguments, so the
swatch count takes its default value 5. -/
def generatePaletteAsync (baseColor : String) (type : PaletteType) : List String :=
  generatePalette baseColor type 5

/-- One step of `generatePaletteWithType` from `use-palette-generator.ts`
over an explicit cache (the hook keeps the `Map` in a `useMemo`).  The
function takes only `(baseColor, type)` -- a third `swatchCount` argument
passed by the page component is silently dropped by JavaScript -- and keys
the cache by the string `baseColor + "-" + type`. -/
def generatePaletteWithType (cache : List (String × PaletteColors))
    (baseColor : String) (type : PaletteType) :
    List String × List (String × PaletteColors) :=
  let cacheKey := baseColor ++ "-" ++ paletteTypeString type
  match cache.lookup cacheKey with
  | some cached => (cached.colors, cache)
  | none =>
    let colors := generatePaletteAsync baseColor type
    let textColors := colors.map getContrastColor
    (colors, (cacheKey, PaletteColors.mk colors textColors) :: cache)

/-! Specification-side definitions, used only to state the claims. -/

/-- The scheme minimum named by the spec: 3 for monochromatic, analogous,
triadic and split-complementary, 4 for complementary and tetradic. -/
def schemeMinimum : PaletteType → ℕ
  | .complementary => 4
  | .tetradic => 4
  | _ => 3

/-- The three raw 0-255 channel parses of a hex color string, as both
`hexToHSL` and `getContrastColor` perform them. -/
def rgbRaw (s : String) : JsNum × JsNum × JsNum :=
  let hex := jsStripHash s
  (jsParseIntHex (jsSubstring hex 0 2),
   jsParseIntHex (jsSubstring hex 2 4),
   jsParseIntHex (jsSubstring hex 4 6))

/-- The finite-arithmetic path of `hslOfChannels`, as a pure function on
rationals: what `hexToHSL` computes once the three channels have parsed to
finite values.  Used to state and prove the properties of valid inputs. -/
def hslFinite (r g b : ℚ) : HSL :=
  let maxv := max r (max g b)
  let minv := min r (min g b)
  let l := (maxv + minv) / 2
  if maxv ≠ minv then
    let d := maxv - minv
    let s := if 1 / 2 < l then d / (2 - (maxv + minv)) else d / (maxv + minv)
    let h :=
      if maxv = r then (g - b) / d + (if g < b then 6 else 0)
      else if maxv = g then (b - r) / d + 2
      else if maxv = b then (r - g) / d + 4
      else 0
    ⟨some (h * 60), some s, some l⟩
  else ⟨some 0, some 0, some l⟩

/-- The finite-arithmetic path of `hue2rgb`, as a pure function on
rationals. -/
def hue2rgbQ (p q t0 : ℚ) : ℚ :=
  let t1 := if t0 < 0 then t0 + 1 else t0
  let t := if 1 < t1 then t1 - 1 else t1
  if t < 1 / 6 then p + (q - p) * 6 * t
  else if t < 1 / 2 then q
  else if t < 2 / 3 then p + (q - p) * (2 / 3 - t) * 6
  else p

/-- The finite-arithmetic path of `hslChannels`, as a pure function on
rationals. -/
def hslChannelsQ (h s l : ℚ) : ℚ × ℚ × ℚ :=
  if s = 0 then (l, l, l)
  else
    let q := if l < 1 / 2 then l * (1 + s) else l + s - l * s
    let p := 2 * l - q
    (hue2rgbQ p q (h / 360 + 1 / 3), hue2rgbQ p q (h / 360), hue2rgbQ p q (h / 360 - 1 / 3))

/-- Validity in the shape the round-trip and contrast claims quantify over:
an optional `'#'` followed by exactly six hex digits. -/
def isValidSixDigitHex (s : String) : Bool :=
  match s.data with
  | '#' :: rest => rest.length = 6 && rest.all isHexDigitChar
  | l => l.length = 6 && l.all isHexDigitChar

/-- Two JS numbers are finite and within 1 of each other. -/
def jsClose1 (a b : JsNum) : Prop :=
  match a, b with
  | some x, some y => |x - y| ≤ 1
  | _, _ => False

/-- A lowercase hexadecimal digit (`[0-9a-f]`). -/
def isLowerHexDigit (c : Char) : Bool :=
  (48 ≤ c.toNat && c.toNat ≤ 57) || (97 ≤ c.toNat && c.toNat ≤ 102)

/-- `'#'` followed by exactly six lowercase hexadecimal digits. -/
def isLowerHexOutput (s : String) : Bool :=
  match s.data with
  | '#' :: rest => rest.length = 6 && rest.all isLowerHexDigit
  | _ => false

/-- A valid hex color string (optional `'#'`, 3 or 6 digits) written with
lowercase digits only. -/
def isLowercaseValidHex (s : String) : Bool :=
  match s.data with
  | '#' :: rest => (rest.length = 3 || rest.length = 6) && rest.all isLowerHexDigit
  | l => (l.length = 3 || l.length = 6) && l.all isLowerHexDigit

/-- A Boolean check that the padded two-digit hex rendering of a byte value
round-trips: it consists of two lowercase hex digits whose pair value is the
byte itself. -/
def byteRoundOk (v : ℕ) : Bool :=
  match (if (intToHexStr (v : ℤ)).length = 1 then "0" ++ intToHexStr (v : ℤ)
         else intToHexStr (v : ℤ)).data with
  | [d1, d2] => isHexDigitChar d1 && isHexDigitChar d2 &&
      decide (hexPairVal d1 d2 = v) && isLowerHexDigit d1 && isLowerHexDigit d2
  | _ => false

/-! ### Reduction lemmas for the JS-number operations on finite values -/

@[simp] theorem jadd_some (a b : ℚ) : jadd (some a) (some b) = some (a + b) := rfl

@[simp] theorem jsub_some (a b : ℚ) : jsub (some a) (some b) = some (a - b) := rfl

@[simp] theorem jmul_some (a b : ℚ) : jmul (some a) (some b) = some (a * b) := rfl

@[simp] theorem jmax_some (a b : ℚ) : jmax (some a) (some b) = some (max a b) := rfl

@[simp] theorem jmin_some (a b : ℚ) : jmin (some a) (some b) = some (min a b) := rfl

@[simp] theorem jlt_some (a b : ℚ) : jlt (some a) (some b) = decide (a < b) := rfl

@[simp] theorem jgt_some (a b : ℚ) : jgt (some a) (some b) = decide (b < a) := rfl

@[simp] theorem jge_some (a b : ℚ) : jge (some a) (some b) = decide (b ≤ a) := rfl

@[simp] theorem jeq_some (a b : ℚ) : jeq (some a) (some b) = decide (a = b) := rfl

@[simp] theorem jneq_some (a b : ℚ) : jneq (some a) (some b) = !(decide (a = b)) := rfl

theorem jdiv_some (a b : ℚ) (hb : b ≠ 0) : jdiv (some a) (some b) = some (a / b) := by
  simp [jdiv, hb]

theorem ite_jsnum {c : Prop} [Decidable c] (a b : ℚ) :
    (if c then (some a : JsNum) else some b) = some (if c then a else b) := by
  split_ifs <;> rfl

/-- `hue2rgb` on finite arguments computes `hue2rgbQ`. -/
theorem hue2rgb_some (p q t0 : ℚ) :
    hue2rgb (some p) (some q) (some t0) = some (hue2rgbQ p q t0) := by
  simp only [hue2rgb, hue2rgbQ, jlt_some, jgt_some, jadd_some, jsub_some, jmul_some,
    decide_eq_true_eq, ite_jsnum]

/-- `hslOfChannels` on finite channels in `[0, 1]` computes `hslFinite`. -/
theorem hslOfChannels_finite {r g b : ℚ} (hr0 : 0 ≤ r) (hg0 : 0 ≤ g) (hb0 : 0 ≤ b)
    (hr1 : r ≤ 1) (hg1 : g ≤ 1) (hb1 : b ≤ 1) :
    hslOfChannels (some r) (some g) (some b) = hslFinite r g b := by
  have hM1 : max r (max g b) ≤ 1 := max_le hr1 (max_le hg1 hb1)
  have hm0 : (0 : ℚ) ≤ min r (min g b) := le_min hr0 (le_min hg0 hb0)
  have hmM : min r (min g b) ≤ max r (max g b) :=
    le_trans (min_le_left _ _) (le_max_left _ _)
  simp only [hslOfChannels, hslFinite, jmax_some, jmin_some, jadd_some]
  rw [jdiv_some _ _ (show (2 : ℚ) ≠ 0 by norm_num)]
  simp only [jneq_some, jgt_some, jeq_some, jlt_some, jsub_some, jmul_some, ne_eq,
    Bool.not_eq_true', decide_eq_false_iff_not, decide_eq_true_eq]
  by_cases hMm : max r (max g b) = min r (min g b)
  · rw [if_neg (show ¬¬(max r (max g b) = min r (min g b)) from not_not_intro hMm),
      if_neg (show ¬¬(max r (max g b) = min r (min g b)) from not_not_intro hMm)]
  · have hlt : min r (min g b) < max r (max g b) := lt_of_le_of_ne hmM (fun e => hMm e.symm)
    have hd : max r (max g b) - min r (min g b) ≠ 0 := sub_ne_zero.mpr hMm
    have hsum : max r (max g b) + min r (min g b) ≠ 0 := by
      have : 0 < max r (max g b) := lt_of_le_of_lt hm0 hlt
      positivity
    have hsum2 : 2 - (max r (max g b) + min r (min g b)) ≠ 0 := by
      intro e
      nlinarith [hlt, hM1]
    rw [if_pos (show ¬(max r (max g b) = min r (min g b)) from hMm),
      if_pos (show ¬(max r (max g b) = min r (min g b)) from hMm)]
    rw [jdiv_some _ _ hsum2, jdiv_some _ _ hsum, jdiv_some _ _ hd, jdiv_some _ _ hd,
      jdiv_some _ _ hd]
    simp only [ite_jsnum, jadd_some, jmul_some]

theorem ratFloor_eq_floor (q : ℚ) : ratFloor q = ⌊q⌋ := Rat.floor_def.symm

theorem jsRound_eq (q : ℚ) : jsRound q = ⌊q + 1 / 2⌋ := by
  rw [jsRound, ratFloor_eq_floor]

/-- Rounding an integer-valued rational gives the integer back. -/
theorem jsRound_natCast (n : ℕ) : jsRound (n : ℚ) = n := by
  rw [jsRound_eq]
  have h2 : ((n : ℚ) + 1 / 2) = (1 / 2 : ℚ) + (n : ℤ) := by push_cast; ring
  rw [h2, Int.floor_add_int]
  norm_num

theorem jsTrunc_eq_floor {q : ℚ} (h : 0 ≤ q) : (jsTrunc q : ℤ) = ⌊q⌋ := by
  have hnum : 0 ≤ q.num := Rat.num_nonneg.mpr h
  rw [jsTrunc, if_neg (by omega), Rat.floor_def]
  obtain ⟨m, hm⟩ : ∃ m : ℕ, q.num = (m : ℤ) := ⟨q.num.toNat, (Int.toNat_of_nonneg hnum).symm⟩
  rw [hm]
  simp only [Int.natAbs_ofNat]
  exact Int.ofNat_div m q.den

/-- The JS remainder by 360 of a nonnegative finite value is finite and lies
in `[0, 360)`. -/
theorem jmod_360 {a : ℚ} (ha : 0 ≤ a) :
    ∃ m : ℚ, jmod (some a) (some 360) = some m ∧ 0 ≤ m ∧ m < 360 := by
  refine ⟨a - 360 * (⌊a / 360⌋ : ℚ), ?_, ?_, ?_⟩
  · rw [jmod, if_neg (by norm_num), jsTrunc_eq_floor (by positivity)]
  · have h := Int.fract_nonneg (a / 360)
    rw [Int.fract] at h
    nlinarith [h]
  · have h := Int.fract_lt_one (a / 360)
    rw [Int.fract] at h
    nlinarith [h]

/-! ### Parsing valid hex strings -/

theorem hexDigitVal_lt {c : Char} (h : isHexDigitChar c = true) :
    (hexDigitVal c).getD 0 < 16 := by
  rw [isHexDigitChar] at h
  rw [hexDigitVal]
  rw [hexDigitVal] at h
  split_ifs at h ⊢ with h1 h2 h3 <;> simp_all <;> omega

theorem jsParseIntHex_cons (c : Char) (rest : List Char) :
    jsParseIntHex ⟨c :: rest⟩ =
      if c = '-' then jneg (jsParseIntHexCore rest)
      else if c = '+' then jsParseIntHexCore rest
      else jsParseIntHexCore (c :: rest) := rfl

theorem hexDigit_ne_minus {c : Char} (h : isHexDigitChar c = true) : c ≠ '-' := by
  intro e; subst e; exact absurd h (by decide)

theorem hexDigit_ne_plus {c : Char} (h : isHexDigitChar c = true) : c ≠ '+' := by
  intro e; subst e; exact absurd h (by decide)

/-- Parsing a two-hex-digit string yields its value. -/
theorem jsParseIntHex_pair {c d : Char} (hc : isHexDigitChar c = true)
    (hd : isHexDigitChar d = true) :
    jsParseIntHex ⟨[c, d]⟩ = some ((hexPairVal c d : ℕ) : ℚ) := by
  rw [jsParseIntHex_cons, if_neg (hexDigit_ne_minus hc), if_neg (hexDigit_ne_plus hc)]
  rw [jsParseIntHexCore]
  simp only [List.takeWhile_cons, hc, hd, List.takeWhile_nil, if_true]
  simp [hexDigitsVal, hexPairVal, List.foldl]

/-- The value of a two-hex-digit pair is at most 255. -/
theorem pairVal_le {c d : Char} (hc : isHexDigitChar c = true)
    (hd : isHexDigitChar d = true) : hexPairVal c d ≤ 255 := by
  have h1 := hexDigitVal_lt hc
  have h2 := hexDigitVal_lt hd
  rw [hexPairVal]
  omega

/-- Stripping the hash from a list of hex digits is the identity. -/
theorem removeFirstHash_of_digits {l : List Char} (h : l.all isHexDigitChar = true) :
    removeFirstHash l = l := by
  induction l with
  | nil => rfl
  | cons c r ih =>
    simp only [List.all_cons, Bool.and_eq_true] at h
    rw [removeFirstHash]
    rw [if_neg (by intro e; subst e; exact absurd h.1 (by decide))]
    rw [ih h.2]

theorem list_six {l : List Char} (h6 : l.length = 6) :
    ∃ a b c d e f, l = [a, b, c, d, e, f] := by
  match l, h6 with
  | [a, b, c, d, e, f], _ => exact ⟨a, b, c, d, e, f, rfl⟩

/-- A string accepted by the six-digit validity check strips to exactly six
hex digit characters. -/
theorem valid6_strip {s : String} (h : isValidSixDigitHex s = true) :
    ∃ c1 c2 c3 c4 c5 c6 : Char, (jsStripHash s).data = [c1, c2, c3, c4, c5, c6] ∧
      isHexDigitChar c1 = true ∧ isHexDigitChar c2 = true ∧ isHexDigitChar c3 = true ∧
      isHexDigitChar c4 = true ∧ isHexDigitChar c5 = true ∧ isHexDigitChar c6 = true := by
  unfold isValidSixDigitHex at h
  split at h
  case h_1 rest heq =>
    simp only [Bool.and_eq_true] at h
    obtain ⟨a, b, c, d, e, f, rfl⟩ := list_six (by exact_mod_cast of_decide_eq_true h.1)
    simp only [List.all_cons, List.all_nil, Bool.and_eq_true] at h
    refine ⟨a, b, c, d, e, f, ?_, h.2.1, h.2.2.1, h.2.2.2.1, h.2.2.2.2.1, h.2.2.2.2.2.1,
      h.2.2.2.2.2.2.1⟩
    rw [jsStripHash, heq]
    rfl
  case h_2 l hne =>
    simp only [Bool.and_eq_true] at h
    obtain ⟨a, b, c, d, e, f, hl⟩ := list_six (by exact_mod_cast of_decide_eq_true h.1)
    rw [hl] at h
    simp only [List.all_cons, List.all_nil, Bool.and_eq_true] at h
    refine ⟨a, b, c, d, e, f, ?_, h.2.1, h.2.2.1, h.2.2.2.1, h.2.2.2.2.1, h.2.2.2.2.2.1,
      h.2.2.2.2.2.2.1⟩
    have hstrip : (jsStripHash s).data = removeFirstHash s.data := rfl
    rw [hstrip, hl]
    exact removeFirstHash_of_digits (by
      simp only [List.all_cons, List.all_nil, Bool.and_eq_true]
      exact ⟨h.2.1, h.2.2.1, h.2.2.2.1, h.2.2.2.2.1, h.2.2.2.2.2.1, h.2.2.2.2.2.2.1, trivial⟩)

/-- On a valid optional-hash six-digit string, `hexToHSL` parses the three
channels and computes `hslFinite` of their normalized values. -/
theorem hexToHSL_valid6 {s : String} (h : isValidSixDigitHex s = true) :
    ∃ v1 v2 v3 : ℕ, v1 ≤ 255 ∧ v2 ≤ 255 ∧ v3 ≤ 255 ∧
      rgbRaw s = (some (v1 : ℚ), some (v2 : ℚ), some (v3 : ℚ)) ∧
      hexToHSL s = hslFinite ((v1 : ℚ) / 255) ((v2 : ℚ) / 255) ((v3 : ℚ) / 255) := by
  obtain ⟨c1, c2, c3, c4, c5, c6, hdata, h1, h2, h3, h4, h5, h6⟩ := valid6_strip h
  have e1 : jsSubstring (jsStripHash s) 0 2 = ⟨[c1, c2]⟩ := by
    rw [jsSubstring, hdata]
    rfl
  have e2 : jsSubstring (jsStripHash s) 2 4 = ⟨[c3, c4]⟩ := by
    rw [jsSubstring, hdata]
    rfl
  have e3 : jsSubstring (jsStripHash s) 4 6 = ⟨[c5, c6]⟩ := by
    rw [jsSubstring, hdata]
    rfl
  refine ⟨hexPairVal c1 c2, hexPairVal c3 c4, hexPairVal c5 c6,
    pairVal_le h1 h2, pairVal_le h3 h4, pairVal_le h5 h6, ?_, ?_⟩
  · rw [rgbRaw, e1, e2, e3, jsParseIntHex_pair h1 h2, jsParseIntHex_pair h3 h4,
      jsParseIntHex_pair h5 h6]
  · rw [hexToHSL, e1, e2, e3, jsParseIntHex_pair h1 h2, jsParseIntHex_pair h3 h4,
      jsParseIntHex_pair h5 h6]
    rw [jdiv_some _ _ (show (255 : ℚ) ≠ 0 by norm_num),
      jdiv_some _ _ (show (255 : ℚ) ≠ 0 by norm_num),
      jdiv_some _ _ (show (255 : ℚ) ≠ 0 by norm_num)]
    exact hslOfChannels_finite (by positivity) (by positivity) (by positivity)
      (by rw [div_le_one (by norm_num)]; exact_mod_cast pairVal_le h1 h2)
      (by rw [div_le_one (by norm_num)]; exact_mod_cast pairVal_le h3 h4)
      (by rw [div_le_one (by norm_num)]; exact_mod_cast pairVal_le h5 h6)

/-- The HSL triple of channels in `[0, 1]` is finite with hue in `[0, 360)`
and saturation and lightness in `[0, 1]`. -/
theorem hslFinite_range {r g b : ℚ} (hr0 : 0 ≤ r) (hg0 : 0 ≤ g) (hb0 : 0 ≤ b)
    (hr1 : r ≤ 1) (hg1 : g ≤ 1) (hb1 : b ≤ 1) :
    ∃ h sv lv : ℚ, hslFinite r g b = ⟨some h, some sv, some lv⟩ ∧
      0 ≤ h ∧ h < 360 ∧ 0 ≤ sv ∧ sv ≤ 1 ∧ 0 ≤ lv ∧ lv ≤ 1 := by
  have hrM : r ≤ max r (max g b) := le_max_left _ _
  have hgM : g ≤ max r (max g b) := le_trans (le_max_left _ _) (le_max_right _ _)
  have hbM : b ≤ max r (max g b) := le_trans (le_max_right _ _) (le_max_right _ _)
  have hmr : min r (min g b) ≤ r := min_le_left _ _
  have hmg : min r (min g b) ≤ g := le_trans (min_le_right _ _) (min_le_left _ _)
  have hmb : min r (min g b) ≤ b := le_trans (min_le_right _ _) (min_le_right _ _)
  have hM1 : max r (max g b) ≤ 1 := max_le hr1 (max_le hg1 hb1)
  have hm0 : (0 : ℚ) ≤ min r (min g b) := le_min hr0 (le_min hg0 hb0)
  simp only [hslFinite]
  by_cases hMm : max r (max g b) = min r (min g b)
  · rw [if_neg (not_not_intro hMm)]
    exact ⟨0, 0, _, rfl, le_refl 0, by norm_num, le_refl 0, by norm_num,
      by positivity, by nlinarith⟩
  · rw [if_pos hMm]
    have hlt : min r (min g b) < max r (max g b) :=
      lt_of_le_of_ne (le_trans hmr hrM) (fun e => hMm e.symm)
    have hd0 : (0 : ℚ) < max r (max g b) - min r (min g b) := by linarith
    have hH : 0 ≤ (if max r (max g b) = r then
          (g - b) / (max r (max g b) - min r (min g b)) + (if g < b then (6 : ℚ) else 0)
        else if max r (max g b) = g then
          (b - r) / (max r (max g b) - min r (min g b)) + 2
        else if max r (max g b) = b then
          (r - g) / (max r (max g b) - min r (min g b)) + 4
        else 0) ∧
        (if max r (max g b) = r then
          (g - b) / (max r (max g b) - min r (min g b)) + (if g < b then (6 : ℚ) else 0)
        else if max r (max g b) = g then
          (b - r) / (max r (max g b) - min r (min g b)) + 2
        else if max r (max g b) = b then
          (r - g) / (max r (max g b) - min r (min g b)) + 4
        else 0) < 6 := by
      split_ifs with hc1 hc2 hc3 hc4
      · have ha : (g - b) / (max r (max g b) - min r (min g b)) < 0 :=
          div_neg_of_neg_of_pos (by linarith) hd0
        have hb2 : (-1 : ℚ) ≤ (g - b) / (max r (max g b) - min r (min g b)) := by
          rw [le_div_iff hd0]; nlinarith
        constructor <;> linarith
      · have ha : (0 : ℚ) ≤ (g - b) / (max r (max g b) - min r (min g b)) :=
          div_nonneg (by linarith) hd0.le
        have hb2 : (g - b) / (max r (max g b) - min r (min g b)) ≤ 1 := by
          rw [div_le_one hd0]; linarith
        constructor <;> linarith
      · have ha : (-1 : ℚ) ≤ (b - r) / (max r (max g b) - min r (min g b)) := by
          rw [le_div_iff hd0]; nlinarith
        have hb2 : (b - r) / (max r (max g b) - min r (min g b)) ≤ 1 := by
          rw [div_le_one hd0]; linarith
        constructor <;> linarith
      · have ha : (-1 : ℚ) ≤ (r - g) / (max r (max g b) - min r (min g b)) := by
          rw [le_div_iff hd0]; nlinarith
        have hb2 : (r - g) / (max r (max g b) - min r (min g b)) ≤ 1 := by
          rw [div_le_one hd0]; linarith
        constructor <;> linarith
      · exfalso
        rcases max_choice r (max g b) with hM | hM
        · exact hc1 hM
        · rcases max_choice g b with hM2 | hM2
          · exact hc3 (by rw [hM, hM2])
          · exact hc4 (by rw [hM, hM2])
    have hS : 0 ≤ (if 1 / 2 < (max r (max g b) + min r (min g b)) / 2 then
          (max r (max g b) - min r (min g b)) / (2 - (max r (max g b) + min r (min g b)))
        else (max r (max g b) - min r (min g b)) / (max r (max g b) + min r (min g b))) ∧
        (if 1 / 2 < (max r (max g b) + min r (min g b)) / 2 then
          (max r (max g b) - min r (min g b)) / (2 - (max r (max g b) + min r (min g b)))
        else (max r (max g b) - min r (min g b)) / (max r (max g b) + min r (min g b))) ≤ 1 := by
      have hm1 : min r (min g b) < 1 := lt_of_lt_of_le hlt hM1
      split_ifs with hc
      · constructor
        · exact div_nonneg (by linarith) (by linarith)
        · rw [div_le_one (by linarith)]; linarith
      · constructor
        · exact div_nonneg (by linarith)
            (by have : (0 : ℚ) < max r (max g b) := lt_of_le_of_lt hm0 hlt; linarith)
        · rw [div_le_one
            (by have : (0 : ℚ) < max r (max g b) := lt_of_le_of_lt hm0 hlt; linarith)]
          linarith
    exact ⟨_, _, _, rfl, by nlinarith [hH.1], by nlinarith [hH.2], hS.1, hS.2,
      by positivity, by nlinarith⟩

/-! ### The count invariant -/

theorem length_mono (c : String) (n : ℕ) :
    (generateMonochromaticPalette c n).length = max 3 n := by
  rw [generateMonochromaticPalette]
  simp only [List.length_append, List.length_map, List.length_range, List.length_cons,
    List.length_nil]
  omega

theorem length_analogous (c : String) (n : ℕ) :
    (generateAnalogousPalette c n).length = max 3 n := by
  rw [generateAnalogousPalette]
  by_cases h : (max 3 n) % 2 = 0 <;>
    simp only [h, List.length_append, List.length_map, List.length_range, if_true, if_false,
      List.length_cons, List.length_nil, ite_not, reduceIte] <;>
    omega

theorem length_complementary (c : String) (n : ℕ) :
    (generateComplementaryPalette c n).length = max 4 n := by
  rw [generateComplementaryPalette]
  simp only [List.length_append, List.length_map, List.length_range, natCeilDiv]
  omega

theorem length_triadic (c : String) (n : ℕ) :
    (generateTriadicPalette c n).length = max 3 n := by
  rw [generateTriadicPalette]
  simp only [List.length_append, List.length_map, List.length_range, natCeilDiv]
  omega

theorem length_tetradic (c : String) (n : ℕ) :
    (generateTetradicPalette c n).length = max 4 n := by
  rw [generateTetradicPalette]
  simp only [List.length_append, List.length_map, List.length_range, natCeilDiv]
  omega

theorem length_splitComplementary (c : String) (n : ℕ) :
    (generateSplitComplementaryPalette c n).length = max 3 n := by
  rw [generateSplitComplementaryPalette]
  simp only [List.length_append, List.length_map, List.length_range, natCeilDiv]
  omega

/-- The length of every generated palette is the requested count clamped from
below by the scheme minimum, for every input string whatsoever. -/
theorem length_generatePalette (c : String) (t : PaletteType) (n : ℕ) :
    (generatePalette c t n).length = max n (schemeMinimum t) := by
  cases t <;>
    simp only [generatePalette, schemeMinimum, length_mono, length_analogous,
      length_complementary, length_triadic, length_tetradic, length_splitComplementary,
      Nat.max_comm]

/-! ### Anchor positions of the standardized base color -/

theorem mono_anchor (s : String) {n : ℕ} (h3 : 3 ≤ n) :
    (generateMonochromaticPalette s n)[(n - 1) / 2]? = some (standardizeHexColor s) := by
  have hmax : max 3 n = n := Nat.max_eq_right h3
  simp only [generateMonochromaticPalette, hmax]
  rw [List.getElem?_append_left
    (by simp only [List.length_append, List.length_map, List.length_range,
      List.length_cons, List.length_nil] <;> omega)]
  rw [List.getElem?_append_right (by simp)]
  simp

theorem analogous_anchor (s : String) {n : ℕ} (h3 : 3 ≤ n) (hodd : n % 2 = 1) :
    (generateAnalogousPalette s n)[n / 2]? = some (standardizeHexColor s) := by
  have hmax : max 3 n = n := Nat.max_eq_right h3
  simp only [generateAnalogousPalette, hmax]
  rw [if_pos (show n % 2 ≠ 0 by omega)]
  rw [List.getElem?_append_left
    (by simp only [List.length_append, List.length_map, List.length_range,
      List.length_cons, List.length_nil] <;> omega)]
  rw [List.getElem?_append_right (by simp)]
  simp

theorem complementary_anchor (s : String) {n : ℕ} (h4 : 4 ≤ n) :
    (generateComplementaryPalette s n)[1]? = some (standardizeHexColor s) := by
  have hmax : max 4 n = n := Nat.max_eq_right h4
  simp only [generateComplementaryPalette, hmax]
  rw [List.getElem?_append_left
    (by simp only [List.length_map, List.length_range, natCeilDiv] <;> omega)]
  rw [List.getElem?_map, List.getElem?_range (by simp only [natCeilDiv] <;> omega)]
  simp

theorem splitComplementary_anchor (s : String) {n : ℕ} (h4 : 4 ≤ n) :
    (generateSplitComplementaryPalette s n)[1]? = some (standardizeHexColor s) := by
  have hmax : max 3 n = n := Nat.max_eq_right (by omega)
  simp only [generateSplitComplementaryPalette, hmax]
  rw [List.getElem?_append_left
    (by simp only [List.length_append, List.length_map, List.length_range, natCeilDiv] <;>
      omega)]
  rw [List.getElem?_append_left
    (by simp only [List.length_map, List.length_range, natCeilDiv] <;> omega)]
  rw [List.getElem?_map, List.getElem?_range (by simp only [natCeilDiv] <;> omega)]
  simp

theorem triadic_anchor (s : String) {n : ℕ} (h3 : 3 ≤ n) :
    (generateTriadicPalette s n)[0]? = some (standardizeHexColor s) := by
  have hmax : max 3 n = n := Nat.max_eq_right h3
  simp only [generateTriadicPalette, hmax]
  rw [List.getElem?_append_left
    (by simp only [List.length_append, List.length_map, List.length_range, natCeilDiv] <;>
      omega)]
  rw [List.getElem?_append_left
    (by simp only [List.length_map, List.length_range, natCeilDiv] <;> omega)]
  rw [List.getElem?_map, List.getElem?_range (by simp only [natCeilDiv] <;> omega)]
  simp

theorem tetradic_anchor (s : String) {n : ℕ} (h4 : 4 ≤ n) :
    (generateTetradicPalette s n)[0]? = some (standardizeHexColor s) := by
  have hmax : max 4 n = n := Nat.max_eq_right h4
  simp only [generateTetradicPalette, hmax]
  rw [List.getElem?_append_left
    (by simp only [List.length_append, List.length_map, List.length_range, natCeilDiv] <;>
      omega)]
  rw [List.getElem?_append_left
    (by simp only [List.length_append, List.length_map, List.length_range, natCeilDiv] <;>
      omega)]
  rw [List.getElem?_append_left
    (by simp only [List.length_map, List.length_range, natCeilDiv] <;> omega)]
  rw [List.getElem?_map, List.getElem?_range (by simp only [natCeilDiv] <;> omega)]
  simp

/-! ### Claim theorems (first group) -/

/-- C1: for every base color that is a valid hex string, every scheme, and
every requested swatch count, the scheme generator returns a list of exactly
`max(count, schemeMinimum)` hex strings, where the scheme minimum is 3 for
monochromatic, analogous, triadic and split-complementary and 4 for
complementary and tetradic; a below-minimum request is silently raised to
the floor rather than rejected. -/
theorem claim_C1 (baseColor : String) (hv : isValidHexColor baseColor = true)
    (type : PaletteType) (count : ℕ) :
    (generatePalette baseColor type count).length = max count (schemeMinimum type) :=
  length_generatePalette baseColor type count

theorem claim_C1_witness :
    isValidHexColor "#3b82f6" = true ∧
      (generatePalette "#3b82f6" PaletteType.tetradic 2).length =
        max 2 (schemeMinimum PaletteType.tetradic) :=
  ⟨by decide, claim_C1 "#3b82f6" (by decide) PaletteType.tetradic 2⟩

/-- C2 (the code contradicts this claim): the palette-generation caching
layer is claimed to key its cache by `(baseColorHex, schemeType, swatchCount)`
and to pass the requested swatch count through to the generator.  In the
code, `generatePaletteWithType` accepts only `(baseColor, type)`, keys the
cache by `baseColor + "-" + type`, and `generatePaletteAsync` calls
`generatePalette(baseColor, type)`, so the count is dropped: this theorem
evaluates the hook at the failing input -- two requests for `#3b82f6`
monochromatic palettes (the page passes swatch counts 3 and 7, which never
reach the hook) share one cache entry and both return the same palette of
the default length 5. -/
theorem claim_C2 :
    (generatePaletteWithType [] "#3b82f6" PaletteType.monochromatic).1.length = 5 ∧
    (generatePaletteWithType
        (generatePaletteWithType [] "#3b82f6" PaletteType.monochromatic).2
        "#3b82f6" PaletteType.monochromatic).1 =
      (generatePaletteWithType [] "#3b82f6" PaletteType.monochromatic).1 ∧
    (generatePaletteWithType
        (generatePaletteWithType [] "#3b82f6" PaletteType.monochromatic).2
        "#3b82f6" PaletteType.monochromatic).2 =
      (generatePaletteWithType [] "#3b82f6" PaletteType.monochromatic).2 ∧
    (generatePaletteWithType [] "#3b82f6" PaletteType.monochromatic).2.length = 1 := by
  with_unfolding_all decide

/-- C3 (amended): for every valid base color and every count at or above the
scheme minimum, the standardized input color appears at the documented
anchor position -- monochromatic at index `(count-1)/2`, complementary at
index 1, analogous in the middle when the count is odd, triadic and tetradic
at index 0 -- and split-complementary at index 1 provided the count is at
least 4; at the split-complementary minimum count 3 the base arm holds only
its lightened variant and the standardized base color does not appear. -/
theorem claim_C3 (s : String) (hv : isValidHexColor s = true) (n : ℕ) :
    (3 ≤ n → (generatePalette s PaletteType.monochromatic n)[(n - 1) / 2]? =
      some (standardizeHexColor s)) ∧
    (4 ≤ n → (generatePalette s PaletteType.complementary n)[1]? =
      some (standardizeHexColor s)) ∧
    (4 ≤ n → (generatePalette s PaletteType.splitComplementary n)[1]? =
      some (standardizeHexColor s)) ∧
    (3 ≤ n → n % 2 = 1 → (generatePalette s PaletteType.analogous n)[n / 2]? =
      some (standardizeHexColor s)) ∧
    (3 ≤ n → (generatePalette s PaletteType.triadic n)[0]? =
      some (standardizeHexColor s)) ∧
    (4 ≤ n → (generatePalette s PaletteType.tetradic n)[0]? =
      some (standardizeHexColor s)) :=
  ⟨fun h => mono_anchor s h, fun h => complementary_anchor s h,
   fun h => splitComplementary_anchor s h, fun h ho => analogous_anchor s h ho,
   fun h => triadic_anchor s h, fun h => tetradic_anchor s h⟩

/-- C3 counterexample: at the split-complementary scheme minimum count 3 --
within the range the claim quantifies over -- the returned palette does not
contain the standardized base color at all (so in particular not at index 1
of the base arm). -/
theorem claim_C3_counterexample :
    isValidHexColor "#3b82f6" = true ∧
    (generatePalette "#3b82f6" PaletteType.splitComplementary 3).length = 3 ∧
    standardizeHexColor "#3b82f6" ∉
      generatePalette "#3b82f6" PaletteType.splitComplementary 3 := by
  with_unfolding_all decide

theorem claim_C3_witness :
    isValidHexColor "#3b82f6" = true ∧ 3 ≤ 5 ∧
      (generatePalette "#3b82f6" PaletteType.monochromatic 5)[(5 - 1) / 2]? =
        some (standardizeHexColor "#3b82f6") :=
  ⟨by decide, by decide, (claim_C3 "#3b82f6" (by decide) 5).1 (by decide)⟩

/-- C5: for every valid 6-hex-digit input the hue returned by `hexToHSL`
lies in `[0, 360)`; every hue offset a scheme generator computes goes
through the JS `% 360` operator, which maps every nonnegative finite
operand into `[0, 360)`; and concretely, the base hue 350 of `#f00028`
with the analogous generator's +40 offset yields hue 30 -- the last
analogous swatch is the conversion of hue 30, never 390. -/
theorem claim_C5 :
    (∀ s : String, isValidSixDigitHex s = true →
      ∃ h : ℚ, (hexToHSL s).h = some h ∧ 0 ≤ h ∧ h < 360) ∧
    (∀ a : ℚ, 0 ≤ a →
      ∃ m : ℚ, jmod (some a) (some 360) = some m ∧ 0 ≤ m ∧ m < 360) ∧
    (hexToHSL "#f00028").h = some 350 ∧
    (generateAnalogousPalette "#f00028" 5)[4]? =
      some (hslToHex (some 30) (some 1) (some (8 / 17))) := by
  refine ⟨?_, fun a ha => jmod_360 ha, ?_, ?_⟩
  · intro s hs
    obtain ⟨v1, v2, v3, hb1, hb2, hb3, _, hhsl⟩ := hexToHSL_valid6 hs
    obtain ⟨h, sv, lv, heq, hh0, hh360, _⟩ :=
      hslFinite_range (r := (v1 : ℚ) / 255) (g := (v2 : ℚ) / 255) (b := (v3 : ℚ) / 255)
        (by positivity) (by positivity) (by positivity)
        (by rw [div_le_one (by norm_num)]; exact_mod_cast hb1)
        (by rw [div_le_one (by norm_num)]; exact_mod_cast hb2)
        (by rw [div_le_one (by norm_num)]; exact_mod_cast hb3)
    exact ⟨h, by rw [hhsl, heq], hh0, hh360⟩
  · with_unfolding_all decide
  · with_unfolding_all decide

theorem claim_C5_witness :
    isValidSixDigitHex "#3b82f6" = true ∧
      ∃ h : ℚ, (hexToHSL "#3b82f6").h = some h ∧ 0 ≤ h ∧ h < 360 :=
  ⟨by decide, claim_C5.1 "#3b82f6" (by decide)⟩

/-- C8: for every valid 6-hex-digit input, `getContrastColor` returns
`#000000` exactly when the YIQ luminance `(299·R + 587·G + 114·B)/1000`
over the raw 0-255 channel values is at least 128, and `#ffffff` otherwise;
in particular on `#ffffff` it returns `#000000` and on `#000000` it returns
`#ffffff`. -/
theorem claim_C8 :
    (∀ s : String, isValidSixDigitHex s = true →
      ∃ v1 v2 v3 : ℕ,
        rgbRaw s = (some (v1 : ℚ), some (v2 : ℚ), some (v3 : ℚ)) ∧
        (getContrastColor s = "#000000" ↔
          (128 : ℚ) ≤ ((v1 : ℚ) * 299 + (v2 : ℚ) * 587 + (v3 : ℚ) * 114) / 1000) ∧
        (getContrastColor s = "#ffffff" ↔
          ((v1 : ℚ) * 299 + (v2 : ℚ) * 587 + (v3 : ℚ) * 114) / 1000 < 128)) ∧
    getContrastColor "#ffffff" = "#000000" ∧
    getContrastColor "#000000" = "#ffffff" := by
  refine ⟨?_, by with_unfolding_all decide, by with_unfolding_all decide⟩
  intro s hs
  obtain ⟨c1, c2, c3, c4, c5, c6, hdata, h1, h2, h3, h4, h5, h6⟩ := valid6_strip hs
  have e1 : jsSubstring (jsStripHash s) 0 2 = ⟨[c1, c2]⟩ := by
    rw [jsSubstring, hdata]
    rfl
  have e2 : jsSubstring (jsStripHash s) 2 4 = ⟨[c3, c4]⟩ := by
    rw [jsSubstring, hdata]
    rfl
  have e3 : jsSubstring (jsStripHash s) 4 6 = ⟨[c5, c6]⟩ := by
    rw [jsSubstring, hdata]
    rfl
  refine ⟨hexPairVal c1 c2, hexPairVal c3 c4, hexPairVal c5 c6, ?_, ?_⟩
  · rw [rgbRaw, e1, e2, e3, jsParseIntHex_pair h1 h2, jsParseIntHex_pair h3 h4,
      jsParseIntHex_pair h5 h6]
  · rw [getContrastColor, e1, e2, e3, jsParseIntHex_pair h1 h2, jsParseIntHex_pair h3 h4,
      jsParseIntHex_pair h5 h6]
    simp only [jmul_some, jadd_some]
    by_cases hY : (128 : ℚ) ≤
        ((hexPairVal c1 c2 : ℚ) * 299 + (hexPairVal c3 c4 : ℚ) * 587 +
          (hexPairVal c5 c6 : ℚ) * 114) / 1000
    · have hc : jge
          (jdiv (some ((hexPairVal c1 c2 : ℚ) * 299 + (hexPairVal c3 c4 : ℚ) * 587 +
            (hexPairVal c5 c6 : ℚ) * 114)) (some 1000)) (some 128) = true := by
        rw [jdiv_some _ _ (show (1000 : ℚ) ≠ 0 by norm_num), jge_some]
        simpa using hY
      rw [if_pos hc]
      constructor
      · exact ⟨fun _ => hY, fun _ => rfl⟩
      · exact ⟨fun e => absurd e (by decide), fun hlt => absurd hY (not_le.mpr hlt)⟩
    · have hc : ¬(jge
          (jdiv (some ((hexPairVal c1 c2 : ℚ) * 299 + (hexPairVal c3 c4 : ℚ) * 587 +
            (hexPairVal c5 c6 : ℚ) * 114)) (some 1000)) (some 128) = true) := by
        rw [jdiv_some _ _ (show (1000 : ℚ) ≠ 0 by norm_num), jge_some]
        simpa using hY
      rw [if_neg hc]
      constructor
      · exact ⟨fun e => absurd e (by decide), fun hge => absurd hge hY⟩
      · exact ⟨fun _ => lt_of_not_le hY, fun _ => rfl⟩

theorem claim_C8_witness :
    isValidSixDigitHex "#3b82f6" = true ∧
      ∃ v1 v2 v3 : ℕ,
        rgbRaw "#3b82f6" = (some (v1 : ℚ), some (v2 : ℚ), some (v3 : ℚ)) ∧
        (getContrastColor "#3b82f6" = "#000000" ↔
          (128 : ℚ) ≤ ((v1 : ℚ) * 299 + (v2 : ℚ) * 587 + (v3 : ℚ) * 114) / 1000) ∧
        (getContrastColor "#3b82f6" = "#ffffff" ↔
          ((v1 : ℚ) * 299 + (v2 : ℚ) * 587 + (v3 : ℚ) * 114) / 1000 < 128) :=
  ⟨by decide, claim_C8.1 "#3b82f6" (by decide)⟩

/-- C7: for every input string, including malformed ones, `hexToHSL` and
`generatePalette` are total (the embedding maps every JS operation, parsing
included, to a total function, so no input throws): `generatePalette`
returns a full palette of the clamped length for every string, and on a
malformed base color `hexToHSL` returns a NaN-bearing HSL structure
(validation being the separate predicate `isValidHexColor`). -/
theorem claim_C7 :
    (∀ (s : String) (t : PaletteType) (n : ℕ),
      (generatePalette s t n).length = max n (schemeMinimum t)) ∧
    isValidHexColor "notacolor" = false ∧
    hexToHSL "notacolor" = ⟨some 0, none, none⟩ := by
  refine ⟨fun s t n => length_generatePalette s t n, by decide, ?_⟩
  with_unfolding_all decide

/-- C9: palette generation is deterministic -- two calls of
`generatePalette` with identical base color, scheme type and swatch count
produce identical output sequences.  The embedding is a pure function of
exactly these three arguments (the source reads no other state), which is
what this theorem expresses. -/
theorem claim_C9 (c1 c2 : String) (t1 t2 : PaletteType) (n1 n2 : ℕ)
    (hc : c1 = c2) (ht : t1 = t2) (hn : n1 = n2) :
    generatePalette c1 t1 n1 = generatePalette c2 t2 n2 := by
  rw [hc, ht, hn]

theorem claim_C9_witness :
    "#3b82f6" = "#3b82f6" ∧
      generatePalette "#3b82f6" PaletteType.triadic 5 =
        generatePalette "#3b82f6" PaletteType.triadic 5 :=
  ⟨rfl, claim_C9 "#3b82f6" "#3b82f6" PaletteType.triadic PaletteType.triadic 5 5 rfl rfl rfl⟩

/-- C10: there is an input accepted by `isValidHexColor` on which `hexToHSL`
does not produce a finite HSL value: the 3-digit shorthand `"abc"` is valid,
but `hexToHSL` parses channels at the fixed offsets 0-2, 2-4 and 4-6, so the
blue channel parse of the 3-character string is empty (NaN) and the
saturation and lightness of the result are NaN. -/
theorem claim_C10 :
    isValidHexColor "abc" = true ∧ hexToHSL "abc" = ⟨some 0, none, none⟩ := by
  refine ⟨by decide, ?_⟩
  with_unfolding_all decide

/-! ### Region evaluation of the hue helper -/

theorem hue2rgbQ_of_mem {p q t0 : ℚ} (h0 : 0 ≤ t0) (h1 : t0 ≤ 1) :
    hue2rgbQ p q t0 =
      if t0 < 1 / 6 then p + (q - p) * 6 * t0
      else if t0 < 1 / 2 then q
      else if t0 < 2 / 3 then p + (q - p) * (2 / 3 - t0) * 6
      else p := by
  simp only [hue2rgbQ]
  rw [if_neg (not_lt.mpr h0), if_neg (not_lt.mpr h1)]

theorem hue2rgbQ_wrap_neg {p q t0 : ℚ} (h : t0 < 0) (h2 : -1 ≤ t0) :
    hue2rgbQ p q t0 = hue2rgbQ p q (t0 + 1) := by
  simp only [hue2rgbQ]
  rw [if_pos h, if_neg (not_lt.mpr (by linarith : t0 + 1 ≤ 1)),
    if_neg (not_lt.mpr (by linarith : (0 : ℚ) ≤ t0 + 1)),
    if_neg (not_lt.mpr (by linarith : t0 + 1 ≤ 1))]

theorem hue2rgbQ_wrap_gt {p q t0 : ℚ} (h : 1 < t0) (h2 : t0 ≤ 2) :
    hue2rgbQ p q t0 = hue2rgbQ p q (t0 - 1) := by
  simp only [hue2rgbQ]
  rw [if_neg (not_lt.mpr (by linarith : (0 : ℚ) ≤ t0)), if_pos h,
    if_neg (not_lt.mpr (by linarith : (0 : ℚ) ≤ t0 - 1)),
    if_neg (not_lt.mpr (by linarith : t0 - 1 ≤ 1))]

theorem hue2rgbQ_seg1 {p q t0 : ℚ} (h0 : 0 ≤ t0) (h : t0 < 1 / 6) :
    hue2rgbQ p q t0 = p + (q - p) * 6 * t0 := by
  rw [hue2rgbQ_of_mem h0 (by linarith), if_pos h]

theorem hue2rgbQ_q {p q t0 : ℚ} (h1 : 1 / 6 ≤ t0) (h2 : t0 < 1 / 2) :
    hue2rgbQ p q t0 = q := by
  rw [hue2rgbQ_of_mem (by linarith) (by linarith), if_neg (not_lt.mpr h1), if_pos h2]

theorem hue2rgbQ_seg2 {p q t0 : ℚ} (h1 : 1 / 2 ≤ t0) (h2 : t0 < 2 / 3) :
    hue2rgbQ p q t0 = p + (q - p) * (2 / 3 - t0) * 6 := by
  rw [hue2rgbQ_of_mem (by linarith) (by linarith), if_neg (by linarith), if_neg (not_lt.mpr h1),
    if_pos h2]

theorem hue2rgbQ_p {p q t0 : ℚ} (h1 : 2 / 3 ≤ t0) (h2 : t0 ≤ 1) :
    hue2rgbQ p q t0 = p := by
  rw [hue2rgbQ_of_mem (by linarith) h2, if_neg (by linarith), if_neg (by linarith),
    if_neg (not_lt.mpr h1)]

theorem hue2rgbQ_mem01 {p q t0 : ℚ} (hp0 : 0 ≤ p) (hp1 : p ≤ 1) (hq0 : 0 ≤ q) (hq1 : q ≤ 1)
    (h0 : 0 ≤ t0) (h1 : t0 ≤ 1) : 0 ≤ hue2rgbQ p q t0 ∧ hue2rgbQ p q t0 ≤ 1 := by
  rw [hue2rgbQ_of_mem h0 h1]
  split_ifs with a b c
  · constructor
    · nlinarith [mul_nonneg (by linarith : (0 : ℚ) ≤ 1 - 6 * t0) hp0,
        mul_nonneg (by linarith : (0 : ℚ) ≤ 6 * t0) hq0]
    · nlinarith [mul_le_mul_of_nonneg_left hp1 (by linarith : (0 : ℚ) ≤ 1 - 6 * t0),
        mul_le_mul_of_nonneg_left hq1 (by linarith : (0 : ℚ) ≤ 6 * t0)]
  · exact ⟨hq0, hq1⟩
  · constructor
    · nlinarith [mul_nonneg (by linarith : (0 : ℚ) ≤ 1 - (2 / 3 - t0) * 6) hp0,
        mul_nonneg (by linarith : (0 : ℚ) ≤ (2 / 3 - t0) * 6) hq0]
    · nlinarith [mul_le_mul_of_nonneg_left hp1 (by linarith : (0 : ℚ) ≤ 1 - (2 / 3 - t0) * 6),
        mul_le_mul_of_nonneg_left hq1 (by linarith : (0 : ℚ) ≤ (2 / 3 - t0) * 6)]
  · exact ⟨hp0, hp1⟩

theorem hue2rgbQ_mem {p q t0 : ℚ} (hp0 : 0 ≤ p) (hp1 : p ≤ 1) (hq0 : 0 ≤ q) (hq1 : q ≤ 1)
    (hm1 : -1 ≤ t0) (h2 : t0 ≤ 2) : 0 ≤ hue2rgbQ p q t0 ∧ hue2rgbQ p q t0 ≤ 1 := by
  by_cases hneg : t0 < 0
  · rw [hue2rgbQ_wrap_neg hneg hm1]
    exact hue2rgbQ_mem01 hp0 hp1 hq0 hq1 (by linarith) (by linarith)
  · by_cases hgt : 1 < t0
    · rw [hue2rgbQ_wrap_gt hgt h2]
      exact hue2rgbQ_mem01 hp0 hp1 hq0 hq1 (by linarith) (by linarith)
    · exact hue2rgbQ_mem01 hp0 hp1 hq0 hq1 (by linarith) (by linarith)

/-- `hslChannels` on finite arguments computes `hslChannelsQ`. -/
theorem hslChannels_finite (h s l : ℚ) :
    hslChannels (some h) (some s) (some l) =
      (some (hslChannelsQ h s l).1, some (hslChannelsQ h s l).2.1,
        some (hslChannelsQ h s l).2.2) := by
  simp only [hslChannels, hslChannelsQ, jeq_some, jlt_some, jmul_some, jadd_some, jsub_some,
    jdiv_some _ _ (show (360 : ℚ) ≠ 0 by norm_num), decide_eq_true_eq, ite_jsnum,
    hue2rgb_some]
  split_ifs <;> rfl

/-! ### Exact inversion of the HSL conversion -/

/-- The `(p, q)` anchors recover the extremes: the `q` computed by
`hslToHex` from the saturation and lightness that `hexToHSL` produced is
exactly the channel maximum. -/
theorem q_eq_max {M m SV : ℚ} (hm : m < M) (hM1 : M ≤ 1) (hm0 : 0 ≤ m)
    (hSV : SV = if 1 / 2 < (M + m) / 2 then (M - m) / (2 - (M + m)) else (M - m) / (M + m)) :
    (if (M + m) / 2 < 1 / 2 then (M + m) / 2 * (1 + SV)
     else (M + m) / 2 + SV - (M + m) / 2 * SV) = M := by
  have hm1 : m < 1 := lt_of_lt_of_le hm hM1
  have hM0 : 0 < M := lt_of_le_of_lt hm0 hm
  rw [hSV]
  split_ifs with h1 h2 h3
  · linarith
  · have hne : M + m ≠ 0 := by positivity
    field_simp
    ring
  · have hne : 2 - (M + m) ≠ 0 := by intro e; linarith
    field_simp
    ring
  · have hsum : M + m = 1 := by linarith
    rw [hsum]
    field_simp
    linarith

set_option maxHeartbeats 2000000 in
theorem channels_recover {r g b HV SV : ℚ}
    (hr0 : 0 ≤ r) (hg0 : 0 ≤ g) (hb0 : 0 ≤ b) (hr1 : r ≤ 1) (hg1 : g ≤ 1) (hb1 : b ≤ 1)
    (hMm : ¬max r (max g b) = min r (min g b))
    (hSV : SV = if 1 / 2 < (max r (max g b) + min r (min g b)) / 2 then
        (max r (max g b) - min r (min g b)) / (2 - (max r (max g b) + min r (min g b)))
      else (max r (max g b) - min r (min g b)) / (max r (max g b) + min r (min g b)))
    (hHV : HV = if max r (max g b) = r then
        (g - b) / (max r (max g b) - min r (min g b)) + (if g < b then 6 else 0)
      else if max r (max g b) = g then
        (b - r) / (max r (max g b) - min r (min g b)) + 2
      else if max r (max g b) = b then
        (r - g) / (max r (max g b) - min r (min g b)) + 4
      else 0) :
    hslChannelsQ (HV * 60) SV ((max r (max g b) + min r (min g b)) / 2) = (r, g, b) := by
  have hrM : r ≤ max r (max g b) := le_max_left _ _
  have hgM : g ≤ max r (max g b) := le_trans (le_max_left _ _) (le_max_right _ _)
  have hbM : b ≤ max r (max g b) := le_trans (le_max_right _ _) (le_max_right _ _)
  have hmr : min r (min g b) ≤ r := min_le_left _ _
  have hmg : min r (min g b) ≤ g := le_trans (min_le_right _ _) (min_le_left _ _)
  have hmb : min r (min g b) ≤ b := le_trans (min_le_right _ _) (min_le_right _ _)
  have hM1 : max r (max g b) ≤ 1 := max_le hr1 (max_le hg1 hb1)
  have hm0 : (0 : ℚ) ≤ min r (min g b) := le_min hr0 (le_min hg0 hb0)
  have hlt : min r (min g b) < max r (max g b) :=
    lt_of_le_of_ne (le_trans hmr hrM) (fun e => hMm e.symm)
  have hd0 : (0 : ℚ) < max r (max g b) - min r (min g b) := by linarith
  have hS0 : 0 < SV := by
    rw [hSV]
    split_ifs with hc
    · exact div_pos hd0 (by nlinarith)
    · exact div_pos hd0 (by nlinarith)
  simp only [hslChannelsQ]
  rw [if_neg hS0.ne']
  rw [q_eq_max hlt hM1 hm0 hSV]
  rw [show 2 * ((max r (max g b) + min r (min g b)) / 2) - max r (max g b) =
      min r (min g b) from by ring]
  rw [show HV * 60 / 360 = HV / 6 from by ring]
  rw [hHV]
  rw [Prod.mk.injEq, Prod.mk.injEq]
  by_cases hMr : max r (max g b) = r
  · rw [if_pos hMr]
    by_cases hgb : g < b
    · -- base max is red, green below blue: hue lands in [300, 360)
      rw [if_pos hgb]
      have hmG : min r (min g b) = g := by
        rw [min_eq_left hgb.le, min_eq_right (by linarith : g ≤ r)]
      set x := (g - b) / (max r (max g b) - min r (min g b)) with hxd
      have hx_mul : x * (max r (max g b) - min r (min g b)) = g - b :=
        div_mul_cancel₀ _ hd0.ne'
      have hx_lt : x < 0 := div_neg_of_neg_of_pos (by linarith) hd0
      have hx_ge : (-1 : ℚ) ≤ x := by
        rw [hxd, le_div_iff hd0]
        nlinarith
      refine ⟨?_, ?_, ?_⟩
      · rw [show (x + 6) / 6 + 1 / 3 = ((x / 6 + 1 / 3) + 1) from by ring,
          hue2rgbQ_wrap_gt (by linarith) (by linarith),
          show (x / 6 + 1 / 3) + 1 - 1 = x / 6 + 1 / 3 from by ring,
          hue2rgbQ_q (by linarith) (by linarith)]
        exact hMr
      · rw [hue2rgbQ_p (by linarith) (by linarith)]
        exact hmG
      · rw [hue2rgbQ_seg2 (by linarith) (by linarith)]
        linear_combination (-1 : ℚ) * hx_mul + hmG
    · -- base max is red, blue at or below green: hue lands in [0, 60]
      rw [if_neg hgb, add_zero]
      have hmB : min r (min g b) = b := by
        rw [min_eq_right (not_lt.mp hgb), min_eq_right (by linarith : b ≤ r)]
      set x := (g - b) / (max r (max g b) - min r (min g b)) with hxd
      have hx_mul : x * (max r (max g b) - min r (min g b)) = g - b :=
        div_mul_cancel₀ _ hd0.ne'
      have hx_ge : (0 : ℚ) ≤ x := div_nonneg (by linarith [not_lt.mp hgb]) hd0.le
      have hx_le : x ≤ 1 := by
        rw [hxd, div_le_one hd0]
        linarith
      rcases lt_or_eq_of_le hx_le with hx1 | hx1
      · refine ⟨?_, ?_, ?_⟩
        · rw [hue2rgbQ_q (by linarith) (by linarith)]
          exact hMr
        · rw [hue2rgbQ_seg1 (by linarith) (by linarith)]
          linear_combination hx_mul + hmB
        · rw [hue2rgbQ_wrap_neg (by linarith) (by linarith),
            show x / 6 - 1 / 3 + 1 = x / 6 + 2 / 3 from by ring,
            hue2rgbQ_p (by linarith) (by linarith)]
          exact hmB
      · -- boundary: green equals the maximum
        have hgr : g = max r (max g b) := by nlinarith [hx_mul]
        refine ⟨?_, ?_, ?_⟩
        · rw [hx1, hue2rgbQ_seg2 (by norm_num) (by norm_num)]
          linarith [hMr]
        · rw [hx1, hue2rgbQ_q (by norm_num) (by norm_num)]
          linarith [hgr]
        · rw [hx1, hue2rgbQ_wrap_neg (by norm_num) (by norm_num),
            show (1 : ℚ) / 6 - 1 / 3 + 1 = 1 / 6 + 2 / 3 from by norm_num,
            hue2rgbQ_p (by norm_num) (by norm_num)]
          exact hmB
  · rw [if_neg hMr]
    by_cases hMg : max r (max g b) = g
    · -- base max is green: hue lands in [60, 180]
      rw [if_pos hMg]
      have hinner : min g b = b := min_eq_right (by linarith)
      set x := (b - r) / (max r (max g b) - min r (min g b)) with hxd
      have hx_mul : x * (max r (max g b) - min r (min g b)) = b - r :=
        div_mul_cancel₀ _ hd0.ne'
      have hx_ge : (-1 : ℚ) ≤ x := by
        rw [hxd, le_div_iff hd0]
        nlinarith
      have hx_le : x ≤ 1 := by
        rw [hxd, div_le_one hd0]
        linarith
      by_cases hx0 : x < 0
      · have hbr : b < r := by nlinarith [hx_mul]
        have hmB : min r (min g b) = b := by rw [hinner, min_eq_right hbr.le]
        refine ⟨?_, ?_, ?_⟩
        · rw [show (x + 2) / 6 + 1 / 3 = (x + 4) / 6 from by ring,
            hue2rgbQ_seg2 (by linarith) (by linarith)]
          linear_combination (-1 : ℚ) * hx_mul + hmB
        · rw [hue2rgbQ_q (by linarith) (by linarith)]
          exact hMg
        · rw [show (x + 2) / 6 - 1 / 3 = x / 6 from by ring,
            hue2rgbQ_wrap_neg (by linarith) (by linarith),
            hue2rgbQ_p (by linarith) (by linarith)]
          exact hmB
      · have hrb : r ≤ b := by nlinarith [hx_mul]
        have hmR : min r (min g b) = r := by rw [hinner, min_eq_left hrb]
        rcases lt_or_eq_of_le hx_le with hx1 | hx1
        · refine ⟨?_, ?_, ?_⟩
          · rw [show (x + 2) / 6 + 1 / 3 = (x + 4) / 6 from by ring,
              hue2rgbQ_p (by linarith) (by linarith)]
            exact hmR
          · rw [hue2rgbQ_q (by linarith) (by linarith)]
            exact hMg
          · rw [show (x + 2) / 6 - 1 / 3 = x / 6 from by ring,
              hue2rgbQ_seg1 (by linarith) (by linarith)]
            linear_combination hx_mul + hmR
        · have hbM2 : b = max r (max g b) := by nlinarith [hx_mul]
          refine ⟨?_, ?_, ?_⟩
          · rw [hx1, show ((1 : ℚ) + 2) / 6 + 1 / 3 = 5 / 6 from by norm_num,
              hue2rgbQ_p (by norm_num) (by norm_num)]
            exact hmR
          · rw [hx1, hue2rgbQ_seg2 (by norm_num) (by norm_num)]
            linarith [hMg]
          · rw [hx1, show ((1 : ℚ) + 2) / 6 - 1 / 3 = 1 / 6 from by norm_num,
              hue2rgbQ_q (by norm_num) (by norm_num)]
            linarith [hbM2]
    · -- base max is blue: hue lands in [180, 300]
      have hMb : max r (max g b) = b := by
        rcases max_choice r (max g b) with hM | hM
        · exact absurd hM hMr
        · rcases max_choice g b with hM2 | hM2
          · exact absurd (by rw [hM, hM2]) hMg
          · rw [hM, hM2]
      rw [if_neg hMg, if_pos hMb]
      have hinner : min g b = g := min_eq_left (by linarith)
      set x := (r - g) / (max r (max g b) - min r (min g b)) with hxd
      have hx_mul : x * (max r (max g b) - min r (min g b)) = r - g :=
        div_mul_cancel₀ _ hd0.ne'
      have hx_ge : (-1 : ℚ) ≤ x := by
        rw [hxd, le_div_iff hd0]
        nlinarith
      have hx_le : x ≤ 1 := by
        rw [hxd, div_le_one hd0]
        linarith
      by_cases hx0 : x < 0
      · have hrg : r < g := by nlinarith [hx_mul]
        have hmR : min r (min g b) = r := by rw [hinner, min_eq_left hrg.le]
        refine ⟨?_, ?_, ?_⟩
        · rw [show (x + 4) / 6 + 1 / 3 = (x + 6) / 6 from by ring,
            hue2rgbQ_p (by linarith) (by linarith)]
          exact hmR
        · rw [hue2rgbQ_seg2 (by linarith) (by linarith)]
          linear_combination (-1 : ℚ) * hx_mul + hmR
        · rw [show (x + 4) / 6 - 1 / 3 = (x + 2) / 6 from by ring,
            hue2rgbQ_q (by linarith) (by linarith)]
          exact hMb
      · have hgr : g ≤ r := by nlinarith [hx_mul]
        have hmG : min r (min g b) = g := by rw [hinner, min_eq_right hgr]
        rcases eq_or_lt_of_le (not_lt.mp hx0) with hx00 | hx00
        · -- boundary: red equals green, hue is exactly 240
          have hrg2 : r = g := by nlinarith [hx_mul]
          refine ⟨?_, ?_, ?_⟩
          · rw [← hx00, show ((0 : ℚ) + 4) / 6 + 1 / 3 = 1 from by norm_num,
              hue2rgbQ_p (by norm_num) (by norm_num)]
            rw [hmG, hrg2]
          · rw [← hx00, show ((0 : ℚ) + 4) / 6 = 2 / 3 from by norm_num,
              hue2rgbQ_p (by norm_num) (by norm_num)]
            exact hmG
          · rw [← hx00, show ((0 : ℚ) + 4) / 6 - 1 / 3 = 1 / 3 from by norm_num,
              hue2rgbQ_q (by norm_num) (by norm_num)]
            exact hMb
        · rcases lt_or_eq_of_le hx_le with hx1 | hx1
          · refine ⟨?_, ?_, ?_⟩
            · rw [show (x + 4) / 6 + 1 / 3 = (x / 6) + 1 from by ring,
                hue2rgbQ_wrap_gt (by linarith) (by linarith),
                show x / 6 + 1 - 1 = x / 6 from by ring,
                hue2rgbQ_seg1 (by linarith) (by linarith)]
              linear_combination hx_mul + hmG
            · rw [hue2rgbQ_p (by linarith) (by linarith)]
              exact hmG
            · rw [show (x + 4) / 6 - 1 / 3 = (x + 2) / 6 from by ring,
                hue2rgbQ_q (by linarith) (by linarith)]
              exact hMb
          · have hrM2 : r = max r (max g b) := by nlinarith [hx_mul]
            refine ⟨?_, ?_, ?_⟩
            · rw [hx1, show ((1 : ℚ) + 4) / 6 + 1 / 3 = 1 / 6 + 1 from by norm_num,
                hue2rgbQ_wrap_gt (by norm_num) (by norm_num),
                show (1 : ℚ) / 6 + 1 - 1 = 1 / 6 from by norm_num,
                hue2rgbQ_q (by norm_num) (by norm_num)]
              linarith [hrM2]
            · rw [hx1, show ((1 : ℚ) + 4) / 6 = 5 / 6 from by norm_num,
                hue2rgbQ_p (by norm_num) (by norm_num)]
              exact hmG
            · rw [hx1, show ((1 : ℚ) + 4) / 6 - 1 / 3 = 1 / 2 from by norm_num,
                hue2rgbQ_seg2 (by norm_num) (by norm_num)]
              linarith [hMb]

/-- The chromatic branch of `hslFinite`, spelled out. -/
theorem hslFinite_chromatic {r g b : ℚ} (hMm : ¬max r (max g b) = min r (min g b)) :
    hslFinite r g b =
      ⟨some ((if max r (max g b) = r then
            (g - b) / (max r (max g b) - min r (min g b)) + (if g < b then 6 else 0)
          else if max r (max g b) = g then
            (b - r) / (max r (max g b) - min r (min g b)) + 2
          else if max r (max g b) = b then
            (r - g) / (max r (max g b) - min r (min g b)) + 4
          else 0) * 60),
        some (if 1 / 2 < (max r (max g b) + min r (min g b)) / 2 then
            (max r (max g b) - min r (min g b)) / (2 - (max r (max g b) + min r (min g b)))
          else (max r (max g b) - min r (min g b)) / (max r (max g b) + min r (min g b))),
        some ((max r (max g b) + min r (min g b)) / 2)⟩ := by
  simp only [hslFinite]
  rw [if_pos hMm]

/-- The channel triple computed by `hslToHex` from the HSL value of an RGB
triple is exactly the original triple: the conversion round-trips without
error in exact arithmetic. -/
theorem roundtrip_channels {r g b : ℚ} (hr0 : 0 ≤ r) (hg0 : 0 ≤ g) (hb0 : 0 ≤ b)
    (hr1 : r ≤ 1) (hg1 : g ≤ 1) (hb1 : b ≤ 1) :
    hslChannels (hslFinite r g b).h (hslFinite r g b).s (hslFinite r g b).l =
      (some r, some g, some b) := by
  by_cases hMm : max r (max g b) = min r (min g b)
  · have heq : hslFinite r g b =
        ⟨some 0, some 0, some ((max r (max g b) + min r (min g b)) / 2)⟩ := by
      simp only [hslFinite]
      rw [if_neg (not_not_intro hMm)]
    rw [heq]
    rw [hslChannels_finite]
    have hMr : max r (max g b) ≤ r := by rw [hMm]; exact min_le_left _ _
    have hMg : max r (max g b) ≤ g := by
      rw [hMm]; exact le_trans (min_le_right _ _) (min_le_left _ _)
    have hMb : max r (max g b) ≤ b := by
      rw [hMm]; exact le_trans (min_le_right _ _) (min_le_right _ _)
    have hrM : r ≤ max r (max g b) := le_max_left _ _
    have hgM : g ≤ max r (max g b) := le_trans (le_max_left _ _) (le_max_right _ _)
    have hbM : b ≤ max r (max g b) := le_trans (le_max_right _ _) (le_max_right _ _)
    simp only [hslChannelsQ, eq_self_iff_true, if_true, Prod.mk.injEq, Option.some.injEq]
    refine ⟨by linarith [hMm], by linarith [hMm], by linarith [hMm]⟩
  · rw [hslFinite_chromatic hMm]
    rw [show (⟨some ((if max r (max g b) = r then
            (g - b) / (max r (max g b) - min r (min g b)) + (if g < b then 6 else 0)
          else if max r (max g b) = g then
            (b - r) / (max r (max g b) - min r (min g b)) + 2
          else if max r (max g b) = b then
            (r - g) / (max r (max g b) - min r (min g b)) + 4
          else 0) * 60),
        some (if 1 / 2 < (max r (max g b) + min r (min g b)) / 2 then
            (max r (max g b) - min r (min g b)) / (2 - (max r (max g b) + min r (min g b)))
          else (max r (max g b) - min r (min g b)) / (max r (max g b) + min r (min g b))),
        some ((max r (max g b) + min r (min g b)) / 2)⟩ : HSL).h =
      some ((if max r (max g b) = r then
            (g - b) / (max r (max g b) - min r (min g b)) + (if g < b then 6 else 0)
          else if max r (max g b) = g then
            (b - r) / (max r (max g b) - min r (min g b)) + 2
          else if max r (max g b) = b then
            (r - g) / (max r (max g b) - min r (min g b)) + 4
          else 0) * 60) from rfl]
    rw [hslChannels_finite]
    rw [channels_recover hr0 hg0 hb0 hr1 hg1 hb1 hMm rfl rfl]

set_option maxRecDepth 20000 in
theorem byteRoundOk_all : ∀ v : ℕ, v < 256 → byteRoundOk v = true := by decide

/-- The two-digit hex byte written by `hslToHex` for the exact channel value
`v/255` consists of two lowercase hex digits that parse back to `v`. -/
theorem toHexByte_byte {v : ℕ} (hv : v ≤ 255) :
    ∃ d1 d2 : Char, toHexByte (some ((v : ℚ) / 255)) = ⟨[d1, d2]⟩ ∧
      isHexDigitChar d1 = true ∧ isHexDigitChar d2 = true ∧ hexPairVal d1 d2 = v ∧
      isLowerHexDigit d1 = true ∧ isLowerHexDigit d2 = true := by
  have hround : jsRound ((v : ℚ) / 255 * 255) = (v : ℤ) := by
    rw [div_mul_cancel₀ _ (show (255 : ℚ) ≠ 0 by norm_num)]
    exact jsRound_natCast v
  have hbyte : toHexByte (some ((v : ℚ) / 255)) =
      (if (intToHexStr (v : ℤ)).length = 1 then "0" ++ intToHexStr (v : ℤ)
       else intToHexStr (v : ℤ)) := by
    rw [toHexByte]
    simp only [hround]
  have hok := byteRoundOk_all v (by omega)
  rw [byteRoundOk] at hok
  split at hok
  case h_1 d1 d2 heq =>
    simp only [Bool.and_eq_true, decide_eq_true_eq] at hok
    exact ⟨d1, d2, by rw [hbyte]; exact String.ext heq, hok.1.1.1.1, hok.1.1.1.2,
      hok.1.1.2, hok.1.2, hok.2⟩
  case h_2 =>
    exact absurd hok (by decide)

/-- C4: for every valid 6-hex-digit color string, converting to HSL and back
with `hslToHex` after `hexToHSL` yields a hex string whose red, green and
blue channel values each differ from the corresponding channel of the input
by at most 1.  (In the exact-rational model the round trip is in fact exact,
so the difference is 0.) -/
theorem claim_C4 (s : String) (hs : isValidSixDigitHex s = true) :
    jsClose1 (rgbRaw s).1
      (rgbRaw (hslToHex (hexToHSL s).h (hexToHSL s).s (hexToHSL s).l)).1 ∧
    jsClose1 (rgbRaw s).2.1
      (rgbRaw (hslToHex (hexToHSL s).h (hexToHSL s).s (hexToHSL s).l)).2.1 ∧
    jsClose1 (rgbRaw s).2.2
      (rgbRaw (hslToHex (hexToHSL s).h (hexToHSL s).s (hexToHSL s).l)).2.2 := by
  obtain ⟨v1, v2, v3, hv1, hv2, hv3, hraw, hhsl⟩ := hexToHSL_valid6 hs
  have hch := roundtrip_channels (r := (v1 : ℚ) / 255) (g := (v2 : ℚ) / 255)
    (b := (v3 : ℚ) / 255) (by positivity) (by positivity) (by positivity)
    (by rw [div_le_one (by norm_num)]; exact_mod_cast hv1)
    (by rw [div_le_one (by norm_num)]; exact_mod_cast hv2)
    (by rw [div_le_one (by norm_num)]; exact_mod_cast hv3)
  obtain ⟨d1, d2, hB1, hd1, hd2, hp1, _, _⟩ := toHexByte_byte hv1
  obtain ⟨d3, d4, hB2, hd3, hd4, hp2, _, _⟩ := toHexByte_byte hv2
  obtain ⟨d5, d6, hB3, hd5, hd6, hp3, _, _⟩ := toHexByte_byte hv3
  have hhex : hslToHex (hexToHSL s).h (hexToHSL s).s (hexToHSL s).l =
      ⟨['#', d1, d2, d3, d4, d5, d6]⟩ := by
    rw [hhsl]
    simp only [hslToHex]
    rw [hch]
    show "#" ++ toHexByte (some ((v1 : ℚ) / 255)) ++ toHexByte (some ((v2 : ℚ) / 255)) ++
        toHexByte (some ((v3 : ℚ) / 255)) = _
    rw [hB1, hB2, hB3]
    rfl
  have hraw2 : rgbRaw ⟨['#', d1, d2, d3, d4, d5, d6]⟩ =
      (some ((hexPairVal d1 d2 : ℕ) : ℚ), some ((hexPairVal d3 d4 : ℕ) : ℚ),
        some ((hexPairVal d5 d6 : ℕ) : ℚ)) := by
    rw [rgbRaw]
    rw [show jsStripHash ⟨['#', d1, d2, d3, d4, d5, d6]⟩ = ⟨[d1, d2, d3, d4, d5, d6]⟩ from
      rfl]
    rw [show jsSubstring ⟨[d1, d2, d3, d4, d5, d6]⟩ 0 2 = ⟨[d1, d2]⟩ from rfl,
      show jsSubstring ⟨[d1, d2, d3, d4, d5, d6]⟩ 2 4 = ⟨[d3, d4]⟩ from rfl,
      show jsSubstring ⟨[d1, d2, d3, d4, d5, d6]⟩ 4 6 = ⟨[d5, d6]⟩ from rfl,
      jsParseIntHex_pair hd1 hd2, jsParseIntHex_pair hd3 hd4, jsParseIntHex_pair hd5 hd6]
  rw [hraw, hhex, hraw2, hp1, hp2, hp3]
  refine ⟨?_, ?_, ?_⟩ <;> simp [jsClose1]

theorem claim_C4_witness :
    isValidSixDigitHex "#3b82f6" = true ∧
      jsClose1 (rgbRaw "#3b82f6").1
        (rgbRaw (hslToHex (hexToHSL "#3b82f6").h (hexToHSL "#3b82f6").s
          (hexToHSL "#3b82f6").l)).1 :=
  ⟨by decide, (claim_C4 "#3b82f6" (by decide)).1⟩

/-! ### Lowercase well-formedness of generated palettes -/

theorem lower_isHex {c : Char} (h : isLowerHexDigit c = true) : isHexDigitChar c = true := by
  rw [isLowerHexDigit] at h
  rw [isHexDigitChar, hexDigitVal]
  simp only [Bool.or_eq_true, Bool.and_eq_true, decide_eq_true_eq] at h
  split_ifs <;> simp_all <;> omega

theorem list_three {l : List Char} (h3 : l.length = 3) :
    ∃ a b c, l = [a, b, c] := by
  match l, h3 with
  | [a, b, c], _ => exact ⟨a, b, c, rfl⟩

theorem lower_ne_hash {c : Char} (h : isLowerHexDigit c = true) : c ≠ '#' := by
  intro e; subst e; exact absurd h (by decide)

/-- Standardizing a lowercase-valid hex string yields `'#'` followed by six
lowercase digits. -/
theorem standardize_lower {s : String} (h : isLowercaseValidHex s = true) :
    ∃ c1 c2 c3 c4 c5 c6, standardizeHexColor s = ⟨['#', c1, c2, c3, c4, c5, c6]⟩ ∧
      isLowerHexDigit c1 = true ∧ isLowerHexDigit c2 = true ∧ isLowerHexDigit c3 = true ∧
      isLowerHexDigit c4 = true ∧ isLowerHexDigit c5 = true ∧ isLowerHexDigit c6 = true := by
  rw [isLowercaseValidHex] at h
  split at h
  case h_1 rest heq =>
    simp only [Bool.and_eq_true, Bool.or_eq_true, decide_eq_true_eq] at h
    rcases h.1 with h3 | h6
    · obtain ⟨a, b, c, rfl⟩ := list_three (by exact_mod_cast h3)
      simp only [List.all_cons, List.all_nil, Bool.and_eq_true] at h
      refine ⟨a, a, b, b, c, c, ?_, h.2.1, h.2.1, h.2.2.1, h.2.2.1, h.2.2.2.1, h.2.2.2.1⟩
      rw [standardizeHexColor]
      simp only [heq, List.head?_cons, eq_self_iff_true, if_true]
    · obtain ⟨a, b, c, d, e, f, rfl⟩ := list_six (by exact_mod_cast h6)
      simp only [List.all_cons, List.all_nil, Bool.and_eq_true] at h
      refine ⟨a, b, c, d, e, f, ?_, h.2.1, h.2.2.1, h.2.2.2.1, h.2.2.2.2.1, h.2.2.2.2.2.1,
        h.2.2.2.2.2.2.1⟩
      rw [standardizeHexColor]
      simp only [heq, List.head?_cons, eq_self_iff_true, if_true]
      exact String.ext heq
  case h_2 l hne =>
    simp only [Bool.and_eq_true, Bool.or_eq_true, decide_eq_true_eq] at h
    rcases h.1 with h3 | h6
    · obtain ⟨a, b, c, hl⟩ := list_three (by exact_mod_cast h3)
      rw [hl] at h
      simp only [List.all_cons, List.all_nil, Bool.and_eq_true] at h
      refine ⟨a, a, b, b, c, c, ?_, h.2.1, h.2.1, h.2.2.1, h.2.2.1, h.2.2.2.1, h.2.2.2.1⟩
      rw [standardizeHexColor]
      have hhead : ¬s.data.head? = some '#' := by
        rw [hl]
        simp only [List.head?_cons, Option.some.injEq]
        exact lower_ne_hash h.2.1
      rw [if_neg hhead]
      have hdata : ("#" ++ s).data = '#' :: s.data := rfl
      rw [hdata, hl]
      rfl
    · obtain ⟨a, b, c, d, e, f, hl⟩ := list_six (by exact_mod_cast h6)
      rw [hl] at h
      simp only [List.all_cons, List.all_nil, Bool.and_eq_true] at h
      refine ⟨a, b, c, d, e, f, ?_, h.2.1, h.2.2.1, h.2.2.2.1, h.2.2.2.2.1, h.2.2.2.2.2.1,
        h.2.2.2.2.2.2.1⟩
      rw [standardizeHexColor]
      have hhead : ¬s.data.head? = some '#' := by
        rw [hl]
        simp only [List.head?_cons, Option.some.injEq]
        exact lower_ne_hash h.2.1
      rw [if_neg hhead]
      have hdata : ("#" ++ s).data = '#' :: s.data := rfl
      rw [hdata, hl]
      show "#" ++ s = (⟨['#', a, b, c, d, e, f]⟩ : String)
      exact String.ext (by rw [hdata, hl])

/-- The channel triple of an in-range HSL value stays in `[0, 1]`. -/
theorem hslChannelsQ_mem {h s l : ℚ} (hh0 : 0 ≤ h) (hh1 : h < 360) (hs0 : 0 ≤ s)
    (hs1 : s ≤ 1) (hl0 : 0 ≤ l) (hl1 : l ≤ 1) :
    (0 ≤ (hslChannelsQ h s l).1 ∧ (hslChannelsQ h s l).1 ≤ 1) ∧
    (0 ≤ (hslChannelsQ h s l).2.1 ∧ (hslChannelsQ h s l).2.1 ≤ 1) ∧
    (0 ≤ (hslChannelsQ h s l).2.2 ∧ (hslChannelsQ h s l).2.2 ≤ 1) := by
  have ht0 : 0 ≤ h / 360 := by positivity
  have ht1 : h / 360 < 1 := (div_lt_one (by norm_num)).mpr hh1
  simp only [hslChannelsQ]
  by_cases hs : s = 0
  · rw [if_pos hs]
    exact ⟨⟨hl0, hl1⟩, ⟨hl0, hl1⟩, ⟨hl0, hl1⟩⟩
  · rw [if_neg hs]
    have hq : 0 ≤ (if l < 1 / 2 then l * (1 + s) else l + s - l * s) ∧
        (if l < 1 / 2 then l * (1 + s) else l + s - l * s) ≤ 1 := by
      split_ifs with hc
      · constructor
        · nlinarith
        · nlinarith
      · constructor
        · nlinarith
        · nlinarith
    have hp : 0 ≤ 2 * l - (if l < 1 / 2 then l * (1 + s) else l + s - l * s) ∧
        2 * l - (if l < 1 / 2 then l * (1 + s) else l + s - l * s) ≤ 1 := by
      split_ifs with hc
      · constructor
        · nlinarith
        · nlinarith
      · constructor
        · nlinarith
        · nlinarith
    exact ⟨hue2rgbQ_mem hp.1 hp.2 hq.1 hq.2 (by linarith) (by linarith),
      hue2rgbQ_mem hp.1 hp.2 hq.1 hq.2 (by linarith) (by linarith),
      hue2rgbQ_mem hp.1 hp.2 hq.1 hq.2 (by linarith) (by linarith)⟩

/-- The byte string written for any in-range channel value is two lowercase
hex digits. -/
theorem toHexByte_mem {x : ℚ} (h0 : 0 ≤ x) (h1 : x ≤ 1) :
    ∃ d1 d2 : Char, toHexByte (some x) = ⟨[d1, d2]⟩ ∧
      isLowerHexDigit d1 = true ∧ isLowerHexDigit d2 = true := by
  have hn0 : 0 ≤ jsRound (x * 255) := by
    rw [jsRound_eq]
    exact Int.le_floor.mpr (by push_cast; nlinarith)
  have hn1 : jsRound (x * 255) < 256 := by
    rw [jsRound_eq]
    exact Int.floor_lt.mpr (by push_cast; nlinarith)
  have hok := byteRoundOk_all (jsRound (x * 255)).toNat (by omega)
  have hcast : ((jsRound (x * 255)).toNat : ℤ) = jsRound (x * 255) := Int.toNat_of_nonneg hn0
  rw [byteRoundOk, hcast] at hok
  have hbyte : toHexByte (some x) =
      (if (intToHexStr (jsRound (x * 255))).length = 1 then
        "0" ++ intToHexStr (jsRound (x * 255))
      else intToHexStr (jsRound (x * 255))) := by
    rw [toHexByte]
  rw [hbyte]
  split at hok
  case h_1 d1 d2 heq =>
    simp only [Bool.and_eq_true, decide_eq_true_eq] at hok
    exact ⟨d1, d2, String.ext heq, hok.1.2, hok.2⟩
  case h_2 =>
    exact absurd hok (by decide)

/-- Conversion of any in-range HSL value is `'#'` followed by six lowercase
hex digits. -/
theorem hslToHex_wf {h s l : ℚ} (hh0 : 0 ≤ h) (hh1 : h < 360) (hs0 : 0 ≤ s) (hs1 : s ≤ 1)
    (hl0 : 0 ≤ l) (hl1 : l ≤ 1) :
    isLowerHexOutput (hslToHex (some h) (some s) (some l)) = true := by
  have hQ := hslChannelsQ_mem hh0 hh1 hs0 hs1 hl0 hl1
  obtain ⟨d1, d2, hB1, hw1, hw2⟩ := toHexByte_mem hQ.1.1 hQ.1.2
  obtain ⟨d3, d4, hB2, hw3, hw4⟩ := toHexByte_mem hQ.2.1.1 hQ.2.1.2
  obtain ⟨d5, d6, hB3, hw5, hw6⟩ := toHexByte_mem hQ.2.2.1 hQ.2.2.2
  simp only [hslToHex]
  rw [hslChannels_finite, hB1, hB2, hB3]
  rw [show ("#" ++ (⟨[d1, d2]⟩ : String) ++ (⟨[d3, d4]⟩ : String) ++ (⟨[d5, d6]⟩ : String)) =
    (⟨['#', d1, d2, d3, d4, d5, d6]⟩ : String) from rfl]
  rw [isLowerHexOutput]
  simp [hw1, hw2, hw3, hw4, hw5, hw6]

theorem hslToHex_wf2 {h s l : ℚ} (hh : 0 ≤ h ∧ h < 360) (hs : 0 ≤ s ∧ s ≤ 1)
    (hl : 0 ≤ l ∧ l ≤ 1) : isLowerHexOutput (hslToHex (some h) (some s) (some l)) = true :=
  hslToHex_wf hh.1 hh.2 hs.1 hs.2 hl.1 hl.2

theorem mono_lower {s : String} {H SV LV : ℚ}
    (hhsl : hexToHSL (standardizeHexColor s) = ⟨some H, some SV, some LV⟩)
    (hstd : isLowerHexOutput (standardizeHexColor s) = true)
    (hH0 : 0 ≤ H) (hH1 : H < 360) (hS0 : 0 ≤ SV) (hS1 : SV ≤ 1) (hL0 : 0 ≤ LV)
    (hL1 : LV ≤ 1) (n : ℕ) :
    ∀ c ∈ generateMonochromaticPalette s n, isLowerHexOutput c = true := by
  intro c hc
  simp only [generateMonochromaticPalette, hhsl, List.mem_append, List.mem_map,
    List.mem_range, List.mem_singleton, jadd_some, jsub_some, jmin_some, jmax_some] at hc
  rcases hc with (⟨j, hj, rfl⟩ | rfl) | ⟨j, hj, rfl⟩
  · refine hslToHex_wf2 ⟨hH0, hH1⟩ ⟨hS0, hS1⟩
      ⟨le_min (add_nonneg hL0 (by split_ifs <;> positivity)) (by norm_num),
       le_trans (min_le_right _ _) (by norm_num)⟩
  · exact hstd
  · refine hslToHex_wf2 ⟨hH0, hH1⟩ ⟨hS0, hS1⟩
      ⟨le_trans (by norm_num) (le_max_right _ _),
       max_le (sub_le_iff_le_add.mpr (le_trans hL1
         (le_add_of_nonneg_right (by split_ifs <;> positivity)))) (by norm_num)⟩

theorem hslToHex_wf_mod {x sv lv : ℚ} (hx : 0 ≤ x) (hs : 0 ≤ sv ∧ sv ≤ 1)
    (hl : 0 ≤ lv ∧ lv ≤ 1) :
    isLowerHexOutput (hslToHex (jmod (some x) (some 360)) (some sv) (some lv)) = true := by
  obtain ⟨m, hmeq, hm0, hm1⟩ := jmod_360 hx
  rw [hmeq]
  exact hslToHex_wf hm0 hm1 hs.1 hs.2 hl.1 hl.2

theorem analogous_lower {s : String} {H SV LV : ℚ}
    (hhsl : hexToHSL (standardizeHexColor s) = ⟨some H, some SV, some LV⟩)
    (hstd : isLowerHexOutput (standardizeHexColor s) = true)
    (hH0 : 0 ≤ H) (hH1 : H < 360) (hS0 : 0 ≤ SV) (hS1 : SV ≤ 1) (hL0 : 0 ≤ LV)
    (hL1 : LV ≤ 1) (n : ℕ) :
    ∀ c ∈ generateAnalogousPalette s n, isLowerHexOutput c = true := by
  intro c hc
  simp only [generateAnalogousPalette, hhsl, List.mem_append, List.mem_map,
    List.mem_range, jadd_some, jsub_some, jmin_some, jmax_some] at hc
  rcases hc with (⟨j, hj, rfl⟩ | hmid) | ⟨j, hj, rfl⟩
  · refine hslToHex_wf_mod ?_ ⟨hS0, hS1⟩ ⟨hL0, hL1⟩
    split_ifs with hcase
    · have h2 : ((max 3 n / 2 - j : ℕ) : ℚ) ≤ 3 := by
        exact_mod_cast (show max 3 n / 2 - j ≤ 3 by omega)
      have h3 : (0 : ℚ) ≤ ((max 3 n / 2 - j : ℕ) : ℚ) := Nat.cast_nonneg _
      linarith
    · have hpos : (0 : ℚ) < ((max 3 n / 2 : ℕ) : ℚ) := by
        exact_mod_cast (show 0 < max 3 n / 2 by omega)
      have hic : ((max 3 n / 2 - j : ℕ) : ℚ) ≤ ((max 3 n / 2 : ℕ) : ℚ) := by
        exact_mod_cast (show max 3 n / 2 - j ≤ max 3 n / 2 by omega)
      have hkey : ((max 3 n / 2 - j : ℕ) : ℚ) * (80 / ((max 3 n / 2 : ℕ) : ℚ)) ≤ 80 := by
        rw [← mul_div_assoc, div_le_iff hpos]
        linarith
      linarith
  · split at hmid
    · rw [List.mem_singleton] at hmid
      subst hmid
      exact hstd
    · exact absurd hmid (List.not_mem_nil c)
  · refine hslToHex_wf_mod ?_ ⟨hS0, hS1⟩ ⟨hL0, hL1⟩
    refine add_nonneg hH0 ?_
    split_ifs
    · positivity
    · positivity

theorem complementary_lower {s : String} {H SV LV : ℚ}
    (hhsl : hexToHSL (standardizeHexColor s) = ⟨some H, some SV, some LV⟩)
    (hstd : isLowerHexOutput (standardizeHexColor s) = true)
    (hH0 : 0 ≤ H) (hH1 : H < 360) (hS0 : 0 ≤ SV) (hS1 : SV ≤ 1) (hL0 : 0 ≤ LV)
    (hL1 : LV ≤ 1) (n : ℕ) :
    ∀ c ∈ generateComplementaryPalette s n, isLowerHexOutput c = true := by
  intro c hc
  have hmcc : 2 ≤ natCeilDiv (max 4 n) 2 := by
    have he : natCeilDiv (max 4 n) 2 = (max 4 n + 2 - 1) / 2 := rfl
    omega
  have hmccQ : (2 : ℚ) ≤ ((natCeilDiv (max 4 n) 2 : ℕ) : ℚ) := by exact_mod_cast hmcc
  simp only [generateComplementaryPalette, hhsl, List.mem_append, List.mem_map,
    List.mem_range, jadd_some, jsub_some, jmin_some, jmax_some] at hc
  rcases hc with ⟨i, hi, rfl⟩ | ⟨i, hi, rfl⟩
  · by_cases hi0 : i = 0
    · subst hi0
      rw [if_pos rfl]
      exact hslToHex_wf2 ⟨hH0, hH1⟩
        ⟨le_trans (by norm_num) (le_max_left _ _), max_le (by norm_num) (by linarith)⟩
        ⟨le_min (by norm_num) (by linarith), le_trans (min_le_left _ _) (by norm_num)⟩
    · rw [if_neg hi0]
      by_cases hi1 : i = 1
      · subst hi1
        rw [if_pos rfl]
        exact hstd
      · rw [if_neg hi1]
        have h1 : (1 : ℚ) ≤ (i : ℚ) := by exact_mod_cast (show 1 ≤ i by omega)
        refine hslToHex_wf2 ⟨hH0, hH1⟩
          ⟨le_min (by norm_num) (add_nonneg hS0 (mul_nonneg (by linarith)
            (div_nonneg (by norm_num) (by linarith)))), min_le_left _ _⟩
          ⟨le_trans (by norm_num) (le_max_left _ _),
           max_le (by norm_num) (sub_le_iff_le_add.mpr (le_trans hL1
             (le_add_of_nonneg_right (mul_nonneg (by linarith)
               (div_nonneg (by norm_num) (by linarith))))))⟩
  · by_cases hi0 : i = 0
    · subst hi0
      rw [if_pos rfl]
      refine hslToHex_wf_mod (by linarith)
        ⟨le_trans (by norm_num) (le_max_left _ _), max_le (by norm_num) (by linarith)⟩
        ⟨le_min (by norm_num) (by linarith), le_trans (min_le_left _ _) (by norm_num)⟩
    · rw [if_neg hi0]
      have h1 : (1 : ℚ) ≤ (i : ℚ) := by exact_mod_cast (show 1 ≤ i by omega)
      refine hslToHex_wf_mod (by linarith)
        ⟨le_min (by norm_num) (add_nonneg hS0 (mul_nonneg (by linarith)
          (div_nonneg (by norm_num) (Nat.cast_nonneg _)))), min_le_left _ _⟩
        ⟨le_trans (by norm_num) (le_max_left _ _),
         max_le (by norm_num) (sub_le_iff_le_add.mpr (le_trans hL1
           (le_add_of_nonneg_right (mul_nonneg (by linarith)
             (div_nonneg (by norm_num) (Nat.cast_nonneg _))))))⟩

theorem triadic_lower {s : String} {H SV LV : ℚ}
    (hhsl : hexToHSL (standardizeHexColor s) = ⟨some H, some SV, some LV⟩)
    (hstd : isLowerHexOutput (standardizeHexColor s) = true)
    (hH0 : 0 ≤ H) (hH1 : H < 360) (hS0 : 0 ≤ SV) (hS1 : SV ≤ 1) (hL0 : 0 ≤ LV)
    (hL1 : LV ≤ 1) (n : ℕ) :
    ∀ c ∈ generateTriadicPalette s n, isLowerHexOutput c = true := by
  intro c hc
  simp only [generateTriadicPalette, hhsl, List.mem_append, List.mem_map,
    List.mem_range, jadd_some, jsub_some, jmin_some, jmax_some] at hc
  rcases hc with (⟨i, hi, rfl⟩ | ⟨i, hi, rfl⟩) | ⟨i, hi, rfl⟩
  · by_cases hi0 : i = 0
    · subst hi0
      rw [if_pos rfl]
      exact hstd
    · rw [if_neg hi0]
      refine hslToHex_wf2 ⟨hH0, hH1⟩
        ⟨le_min (by norm_num) (add_nonneg hS0 (by positivity)), min_le_left _ _⟩
        ⟨le_trans (by norm_num) (le_max_left _ _),
         max_le (by norm_num) (sub_le_iff_le_add.mpr (le_trans hL1
           (le_add_of_nonneg_right (by positivity))))⟩
  · by_cases hi0 : i = 0
    · subst hi0
      rw [if_pos rfl]
      exact hslToHex_wf_mod (by linarith) ⟨hS0, hS1⟩ ⟨hL0, hL1⟩
    · rw [if_neg hi0]
      refine hslToHex_wf_mod (by linarith)
        ⟨le_min (by norm_num) (add_nonneg hS0 (by positivity)), min_le_left _ _⟩
        ⟨le_trans (by norm_num) (le_max_left _ _),
         max_le (by norm_num) (sub_le_iff_le_add.mpr (le_trans hL1
           (le_add_of_nonneg_right (by positivity))))⟩
  · by_cases hi0 : i = 0
    · subst hi0
      rw [if_pos rfl]
      exact hslToHex_wf_mod (by linarith) ⟨hS0, hS1⟩ ⟨hL0, hL1⟩
    · rw [if_neg hi0]
      refine hslToHex_wf_mod (by linarith)
        ⟨le_min (by norm_num) (add_nonneg hS0 (by positivity)), min_le_left _ _⟩
        ⟨le_trans (by norm_num) (le_max_left _ _),
         max_le (by norm_num) (sub_le_iff_le_add.mpr (le_trans hL1
           (le_add_of_nonneg_right (by positivity))))⟩

theorem tetradic_lower {s : String} {H SV LV : ℚ}
    (hhsl : hexToHSL (standardizeHexColor s) = ⟨some H, some SV, some LV⟩)
    (hstd : isLowerHexOutput (standardizeHexColor s) = true)
    (hH0 : 0 ≤ H) (hH1 : H < 360) (hS0 : 0 ≤ SV) (hS1 : SV ≤ 1) (hL0 : 0 ≤ LV)
    (hL1 : LV ≤ 1) (n : ℕ) :
    ∀ c ∈ generateTetradicPalette s n, isLowerHexOutput c = true := by
  intro c hc
  simp only [generateTetradicPalette, hhsl, List.mem_append, List.mem_map,
    List.mem_range, jadd_some, jsub_some, jmin_some, jmax_some] at hc
  rcases hc with ((⟨i, hi, rfl⟩ | ⟨i, hi, rfl⟩) | ⟨i, hi, rfl⟩) | ⟨i, hi, rfl⟩
  · by_cases hi0 : i = 0
    · subst hi0
      rw [if_pos rfl]
      exact hstd
    · rw [if_neg hi0]
      refine hslToHex_wf2 ⟨hH0, hH1⟩
        ⟨le_trans (by norm_num) (le_max_left _ _),
         max_le (by norm_num) (sub_le_iff_le_add.mpr (le_trans hS1
           (le_add_of_nonneg_right (by positivity))))⟩
        ⟨le_min (by norm_num) (add_nonneg hL0 (by positivity)),
         le_trans (min_le_left _ _) (by norm_num)⟩
  · exact hslToHex_wf_mod (by linarith) ⟨hS0, hS1⟩ ⟨hL0, hL1⟩
  · exact hslToHex_wf_mod (by linarith) ⟨hS0, hS1⟩ ⟨hL0, hL1⟩
  · exact hslToHex_wf_mod (by linarith) ⟨hS0, hS1⟩ ⟨hL0, hL1⟩

theorem splitComplementary_lower {s : String} {H SV LV : ℚ}
    (hhsl : hexToHSL (standardizeHexColor s) = ⟨some H, some SV, some LV⟩)
    (hstd : isLowerHexOutput (standardizeHexColor s) = true)
    (hH0 : 0 ≤ H) (hH1 : H < 360) (hS0 : 0 ≤ SV) (hS1 : SV ≤ 1) (hL0 : 0 ≤ LV)
    (hL1 : LV ≤ 1) (n : ℕ) :
    ∀ c ∈ generateSplitComplementaryPalette s n, isLowerHexOutput c = true := by
  intro c hc
  simp only [generateSplitComplementaryPalette, hhsl, List.mem_append, List.mem_map,
    List.mem_range, jadd_some, jsub_some, jmin_some, jmax_some] at hc
  rcases hc with (⟨i, hi, rfl⟩ | ⟨i, hi, rfl⟩) | ⟨i, hi, rfl⟩
  · by_cases hi0 : i = 0
    · subst hi0
      rw [if_pos rfl]
      exact hslToHex_wf2 ⟨hH0, hH1⟩
        ⟨le_trans (by norm_num) (le_max_left _ _), max_le (by norm_num) (by linarith)⟩
        ⟨le_min (by norm_num) (by linarith), le_trans (min_le_left _ _) (by norm_num)⟩
    · rw [if_neg hi0]
      by_cases hi1 : i = 1
      · subst hi1
        rw [if_pos rfl]
        exact hstd
      · rw [if_neg hi1]
        exact hslToHex_wf2 ⟨hH0, hH1⟩
          ⟨le_min (by norm_num) (by linarith), min_le_left _ _⟩
          ⟨le_trans (by norm_num) (le_max_left _ _), max_le (by norm_num) (by linarith)⟩
  · exact hslToHex_wf_mod (by linarith) ⟨hS0, hS1⟩ ⟨hL0, hL1⟩
  · exact hslToHex_wf_mod (by linarith) ⟨hS0, hS1⟩ ⟨hL0, hL1⟩

/-- C6 (amended): every palette element produced by an HSL-to-hex conversion
is `'#'` followed by six lowercase hex digits, and the standardized base
color echoes the input's own digits; hence for every valid input written
with lowercase digits, every element of every generated palette is `'#'`
followed by six lowercase hexadecimal digits.  (The unamended claim, for
inputs with uppercase digits, fails: see the counterexample.) -/
theorem claim_C6 (s : String) (h : isLowercaseValidHex s = true) (t : PaletteType) (n : ℕ) :
    ∀ c ∈ generatePalette s t n, isLowerHexOutput c = true := by
  obtain ⟨c1, c2, c3, c4, c5, c6, hstd, h1, h2, h3, h4, h5, h6⟩ := standardize_lower h
  have hstdOut : isLowerHexOutput (standardizeHexColor s) = true := by
    rw [hstd]
    simp [isLowerHexOutput, h1, h2, h3, h4, h5, h6]
  have hvalid6 : isValidSixDigitHex (standardizeHexColor s) = true := by
    rw [hstd]
    simp [isValidSixDigitHex, lower_isHex h1, lower_isHex h2, lower_isHex h3,
      lower_isHex h4, lower_isHex h5, lower_isHex h6]
  obtain ⟨v1, v2, v3, hb1, hb2, hb3, hraw, hhsl⟩ := hexToHSL_valid6 hvalid6
  obtain ⟨H, SV, LV, hfin, hH0, hH1, hS0, hS1, hL0, hL1⟩ :=
    @hslFinite_range ((v1 : ℚ) / 255) ((v2 : ℚ) / 255) ((v3 : ℚ) / 255)
      (by positivity) (by positivity) (by positivity)
      (by rw [div_le_one (by norm_num)]; exact_mod_cast hb1)
      (by rw [div_le_one (by norm_num)]; exact_mod_cast hb2)
      (by rw [div_le_one (by norm_num)]; exact_mod_cast hb3)
  have hhsl2 : hexToHSL (standardizeHexColor s) = ⟨some H, some SV, some LV⟩ :=
    hhsl.trans hfin
  cases t
  · exact mono_lower hhsl2 hstdOut hH0 hH1 hS0 hS1 hL0 hL1 n
  · exact analogous_lower hhsl2 hstdOut hH0 hH1 hS0 hS1 hL0 hL1 n
  · exact complementary_lower hhsl2 hstdOut hH0 hH1 hS0 hS1 hL0 hL1 n
  · exact triadic_lower hhsl2 hstdOut hH0 hH1 hS0 hS1 hL0 hL1 n
  · exact tetradic_lower hhsl2 hstdOut hH0 hH1 hS0 hS1 hL0 hL1 n
  · exact splitComplementary_lower hhsl2 hstdOut hH0 hH1 hS0 hS1 hL0 hL1 n

/-- C6 counterexample to the unamended claim: `"#3B82F6"` is a valid hex
color (input parsing is case-insensitive), yet the monochromatic palette
generated from it contains the verbatim uppercase string `"#3B82F6"`,
which is not `'#'` followed by six lowercase digits:
`standardizeHexColor` echoes the input's casing. -/
theorem claim_C6_counterexample :
    isValidHexColor "#3B82F6" = true ∧
    "#3B82F6" ∈ generatePalette "#3B82F6" PaletteType.monochromatic 3 ∧
    isLowerHexOutput "#3B82F6" = false := by
  refine ⟨by decide, ?_, by decide⟩
  with_unfolding_all decide

theorem claim_C6_witness :
    isLowercaseValidHex "#3b82f6" = true ∧
    isLowerHexOutput (standardizeHexColor "#3b82f6") = true :=
  ⟨by decide, claim_C6 "#3b82f6" (by decide) PaletteType.monochromatic 3
    (standardizeHexColor "#3b82f6") (by with_unfolding_all decide)⟩

end PaletteLab
